import Mathlib

/-!
# Verification of the scaraplate file-reconciliation engine

This file gives a shallow embedding, in Lean 4, of the core of the
scaraplate repository (`scaraplate/strategies.py`, `scaraplate/rollup.py`,
`scaraplate/config.py`) and proves theorems about the embedded
definitions.

Modelling conventions:

* Python `bytes` and `str` buffers are modelled as `List Char`
  (abbreviated `Bytes`).  All the behaviours verified here concern
  ASCII-compatible content, for which `bytes`/`str` round-tripping
  (`encode`/`decode`) is the identity, so both types share one model.
* Python file objects (`io.BytesIO`) are modelled either as plain
  `Bytes` values (where every access happens at offset zero) or, where
  seek positions matter, as a `BinIO` structure carrying an explicit
  position.
* External collaborators that are not part of the repository are
  modelled at their documented interfaces: `re` patterns appear as
  boolean matcher functions, `hashlib.md5(...).hexdigest()` as an
  abstract function parameter, `configparser.ConfigParser` as an
  ordered association list with the configparser read/write semantics,
  `packaging.requirements.Requirement(...).name` as the maximal leading
  run of package-name characters, and marshmallow schema loading as an
  explicit field table.  Python `str.casefold`/`str.lower` are modelled
  with `Char.toLower`, which agrees with them on ASCII data.
-/

namespace Scaraplate

/-- Byte/character buffers.  Python `bytes` and `str` are both modelled
as lists of characters (the content relevant to the verified claims is
ASCII, where the two coincide). -/
abbrev Bytes := List Char

/-- Coerce a Lean string literal to the buffer model. -/
def bs (s : String) : Bytes := s.data

/-- Python whitespace characters recognised by no-argument
`str.strip` / `str.split` (ASCII part). -/
def isPyWS (c : Char) : Bool :=
  c = ' ' || c = '\t' || c = '\n' || c = '\r' || c = '\x0b' || c = '\x0c'

/-- `str.lstrip()` (no-argument form, ASCII whitespace). -/
def lstripWS (s : Bytes) : Bytes := s.dropWhile isPyWS

/-- Drop elements from the end of a list while a predicate holds. -/
def dropEndWhile (p : Char → Bool) (s : Bytes) : Bytes :=
  (s.reverse.dropWhile p).reverse

/-- `str.rstrip()` (no-argument form, ASCII whitespace). -/
def rstripWS (s : Bytes) : Bytes := dropEndWhile isPyWS s

/-- `str.strip()` (no-argument form, ASCII whitespace). -/
def stripWS (s : Bytes) : Bytes := rstripWS (lstripWS s)

/-- `bytes.rstrip(b"\r\n")`: drop trailing CR/LF characters. -/
def rstripCRLF (s : Bytes) : Bytes := dropEndWhile (fun c => c = '\r' || c = '\n') s

/-- Python `str.lower()` / `str.casefold()` restricted to ASCII content,
where both functions coincide with character-wise lowercasing. -/
def pyLower (s : Bytes) : Bytes := s.map Char.toLower

/-- Prepend a character to the first chunk of a chunk list (helper for
line/word splitters). -/
def consHead (c : Char) : List Bytes → List Bytes
  | [] => [[c]]
  | l :: ls => (c :: l) :: ls

/-- Python `bytes.splitlines()` / `str.splitlines()` for content whose
line breaks are `\n`, `\r\n` or `\r` (the full set recognised by
`bytes.splitlines`; `str.splitlines` additionally recognises rare
Unicode breaks that never occur in the verified content).  A trailing
line break does not produce a trailing empty chunk. -/
def splitlines : Bytes → List Bytes
  | [] => []
  | '\r' :: '\n' :: rest => [] :: splitlines rest
  | '\r' :: rest => [] :: splitlines rest
  | '\n' :: rest => [] :: splitlines rest
  | c :: rest => consHead c (splitlines rest)

/-- Python no-argument `str.split()`: split on runs of whitespace,
discarding empty chunks.  `acc` holds the current word, reversed. -/
def splitWSGo (acc : Bytes) : Bytes → List Bytes
  | [] => if acc.isEmpty then [] else [acc.reverse]
  | c :: rest =>
    if isPyWS c then
      if acc.isEmpty then splitWSGo [] rest
      else acc.reverse :: splitWSGo [] rest
    else splitWSGo (c :: acc) rest

/-- Python no-argument `str.split()`. -/
def splitWS (s : Bytes) : List Bytes := splitWSGo [] s

/-- `BinaryIO.readline()` from offset zero on a binary buffer: everything
up to and including the first `\n`, or the whole buffer if there is
none. -/
def firstLine : Bytes → Bytes
  | [] => []
  | '\n' :: _ => ['\n']
  | c :: rest => c :: firstLine rest

/-- The trailing CR/LF run of the first line of a buffer (empty when the
first line has no line ending). -/
def lineEnding (s : Bytes) : Bytes :=
  let l := firstLine s
  l.drop (rstripCRLF l).length

/-- `scaraplate.strategies.detect_newline`, value level: inspect each
candidate buffer in order; the first buffer whose first line carries a
line ending determines the newline style, else the default applies. -/
def detect_newline (bufs : List (Option Bytes)) (dflt : Bytes) : Bytes :=
  match bufs with
  | [] => dflt
  | none :: rest => detect_newline rest dflt
  | some b :: rest =>
    let e := lineEnding b
    if e.isEmpty then detect_newline rest dflt else e

/-- A binary file object with an explicit seek position, for the parts
of the specification that speak about read offsets. -/
structure BinIO where
  data : Bytes
  pos : Nat
deriving DecidableEq, Repr

/-- `readline()` on a positioned buffer: read from the current position
up to and including the first `\n`, advancing the position. -/
def BinIO.readlineFrom (b : BinIO) : Bytes × BinIO :=
  let l := firstLine (b.data.drop b.pos)
  (l, ⟨b.data, b.pos + l.length⟩)

/-- `seek(0)`. -/
def BinIO.seek0 (b : BinIO) : BinIO := ⟨b.data, 0⟩

/-- `scaraplate.strategies.detect_newline`, file-object level: mirrors
the Python loop, which asserts `tell() == 0`, reads one line, seeks the
buffer back to offset zero, and stops at the first buffer whose first
line has an ending.  Returns the detected newline together with the
buffer states after the call. -/
def detect_newline_io (bufs : List (Option BinIO)) (dflt : Bytes) :
    Bytes × List (Option BinIO) :=
  match bufs with
  | [] => (dflt, [])
  | none :: rest =>
    ((detect_newline_io rest dflt).1, none :: (detect_newline_io rest dflt).2)
  | some b :: rest =>
    let line := b.readlineFrom.1
    let b2 := b.readlineFrom.2.seek0
    let core := rstripCRLF line
    if line.length ≠ core.length then
      (line.drop core.length, some b2 :: rest)
    else
      ((detect_newline_io rest dflt).1, some b2 :: (detect_newline_io rest dflt).2)

/-- Stable-enough insertion used to model Python `sorted`: insert `x`
after every element `y` with `le y x`. -/
def insertLe {α : Type} (le : α → α → Bool) (x : α) : List α → List α
  | [] => [x]
  | y :: ys => if le y x then y :: insertLe le x ys else x :: y :: ys

/-- Insertion sort modelling Python `sorted` with a key-derived
comparison `le` (agreeing with `sorted` up to the order of elements with
equal keys, which none of the verified statements depend on). -/
def sortLe {α : Type} (le : α → α → Bool) : List α → List α
  | [] => []
  | x :: xs => insertLe le x (sortLe le xs)

/-- Python `sep.join(chunks)`. -/
def joinNL (nl : Bytes) : List Bytes → Bytes
  | [] => []
  | [x] => x
  | x :: y :: xs => x ++ nl ++ joinNL nl (y :: xs)

/-- `isPrefixB n h`: `h` starts with `n` (boolean, executable). -/
def isPrefixB : Bytes → Bytes → Bool
  | [], _ => true
  | _ :: _, [] => false
  | a :: as, b :: bb => a = b && isPrefixB as bb

/-- Python `needle in haystack` for byte strings: contiguous-subsequence
test (boolean, executable). -/
def containsSeq (needle : Bytes) : Bytes → Bool
  | [] => isPrefixB needle []
  | c :: rest => isPrefixB needle (c :: rest) || containsSeq needle rest

/-- `scaraplate.template.TemplateMeta`, restricted to the fields the
strategies read: the commit URL and the dirty flag. -/
structure TemplateMeta where
  commit_url : Bytes
  is_git_dirty : Bool
deriving DecidableEq, Repr

/-- The validated configuration of `TemplateHash` (and its subclass
`RenderedTemplateFileHash`): `line_comment_start` (default `#`),
`max_line_length` (default `None`, validated to be at least 10 when
present), `max_line_linter_ignore_mark` (default `  # noqa`). -/
structure THConfig where
  line_comment_start : Bytes
  max_line_length : Option Nat
  max_line_linter_ignore_mark : Bytes
deriving DecidableEq, Repr

/-- The default `TemplateHash` configuration produced by its schema for
an empty config block. -/
def THConfig.default : THConfig :=
  ⟨bs "#", none, bs "  # noqa"⟩

namespace TemplateHash

/-- The fixed first generated comment line (without the line-comment
start). -/
def genLine : Bytes :=
  bs "Generated by https://github.com/rambler-digital-solutions/scaraplate"

/-- The commit line of the generated comment: `From <commit_url>`, or
`From (dirty) <commit_url>` when the template checkout is dirty. -/
def fromLine (meta : TemplateMeta) : Bytes :=
  if meta.is_git_dirty then bs "From (dirty) " ++ meta.commit_url
  else bs "From " ++ meta.commit_url

/-- `TemplateHash.comment_contents`. -/
def comment_contents (cfg : THConfig) (meta : TemplateMeta) : List Bytes :=
  [genLine, fromLine meta].map (fun line => cfg.line_comment_start ++ bs " " ++ line)

/-- `TemplateHash.searched_comment_contents`: the comment block searched
for in the target, which for this strategy is the full comment block
(including the commit line). -/
def searched_comment_contents (cfg : THConfig) (meta : TemplateMeta) : List Bytes :=
  comment_contents cfg meta

/-- `TemplateHash._maybe_add_linter_ignore`: append the linter-ignore
mark when a maximum line length is configured (a nonzero, hence truthy,
integer) and the line's length reaches it. -/
def maybe_add_linter_ignore (cfg : THConfig) (line : Bytes) : Bytes :=
  match cfg.max_line_length with
  | none => line
  | some n =>
    if n ≠ 0 && line.length ≥ n then line ++ cfg.max_line_linter_ignore_mark
    else line

/-- `TemplateHash.render_comment`: each comment line, with the
linter-ignore mark possibly appended, followed by the newline. -/
def render_comment (cfg : THConfig) (comment_lines : List Bytes) (nl : Bytes) : Bytes :=
  (comment_lines.map (fun line => maybe_add_linter_ignore cfg line ++ nl)).flatten

/-- The rewritten output of `TemplateHash.apply`: the template content
with its line breaks normalised to the detected newline, a blank line,
and the appended comment block. -/
def rewritten (cfg : THConfig) (meta : TemplateMeta) (template nl : Bytes) : Bytes :=
  ((splitlines template).map (fun line => line ++ nl)).flatten
    ++ nl ++ render_comment cfg (comment_contents cfg meta) nl

/-- `TemplateHash.apply`. -/
def apply (cfg : THConfig) (meta : TemplateMeta)
    (target : Option Bytes) (template : Bytes) : Bytes :=
  let nl := detect_newline [target, some template] (bs "\n")
  let searched := render_comment cfg (searched_comment_contents cfg meta) nl
  match target with
  | some t =>
    if containsSeq searched t && !meta.is_git_dirty then t
    else rewritten cfg meta template nl
  | none => rewritten cfg meta template nl

end TemplateHash

namespace RenderedTemplateFileHash

/-- `RenderedTemplateFileHash.searched_comment_contents`.  The MD5 hex
digest of `hashlib` is an external collaborator, passed in as the
function `md5hex`.  Note that this searched block depends only on the
configuration and the rendered template content — not on the template's
commit metadata. -/
def searched_comment_contents (md5hex : Bytes → Bytes) (cfg : THConfig)
    (template : Bytes) : List Bytes :=
  [TemplateHash.genLine, bs "RenderedTemplateFileHash " ++ md5hex template].map
    (fun line => cfg.line_comment_start ++ bs " " ++ line)

/-- `RenderedTemplateFileHash.comment_contents`: the searched block plus
the commit line. -/
def comment_contents (md5hex : Bytes → Bytes) (cfg : THConfig) (meta : TemplateMeta)
    (template : Bytes) : List Bytes :=
  searched_comment_contents md5hex cfg template ++
    [TemplateHash.fromLine meta].map (fun line => cfg.line_comment_start ++ bs " " ++ line)

/-- `RenderedTemplateFileHash`'s inherited `apply` (from `TemplateHash`),
with the overridden comment-content methods. -/
def apply (md5hex : Bytes → Bytes) (cfg : THConfig) (meta : TemplateMeta)
    (target : Option Bytes) (template : Bytes) : Bytes :=
  let nl := detect_newline [target, some template] (bs "\n")
  let searched := TemplateHash.render_comment cfg
    (searched_comment_contents md5hex cfg template) nl
  let rewr := ((splitlines template).map (fun line => line ++ nl)).flatten
    ++ nl ++ TemplateHash.render_comment cfg (comment_contents md5hex cfg meta template) nl
  match target with
  | some t =>
    if containsSeq searched t && !meta.is_git_dirty then t else rewr
  | none => rewr

end RenderedTemplateFileHash

namespace SortedUniqueLines

/-- The default `comment_pattern` of `SortedUniqueLines`, the regex
`^ *([;#%]|//)` realised directly as a matcher: after any run of
spaces, the line starts a comment with `;`, `#`, `%` or `//`. -/
def defaultCommentMatch (line : Bytes) : Bool :=
  match line.dropWhile (fun c => c = ' ') with
  | ';' :: _ => true
  | '#' :: _ => true
  | '%' :: _ => true
  | '/' :: '/' :: _ => true
  | _ => false

/-- `SortedUniqueLines.split_header`: the header is the maximal leading
run of lines that match the comment pattern or are blank; the remaining
lines (starting from the first non-header line) form the body.  The
compiled regex of the configuration is modelled as the boolean matcher
`pat` (`pat line` models `pattern.match(line) is not None`). -/
def split_header (pat : Bytes → Bool) : List Bytes → List Bytes × List Bytes
  | [] => ([], [])
  | l :: ls =>
    if pat l || (stripWS l).isEmpty then
      let (h, b) := split_header pat ls
      (l :: h, b)
    else ([], l :: ls)

/-- The two-level sort comparison of `SortedUniqueLines.apply`:
primarily the case-folded line, secondarily the original line
(Python tuple comparison on `(s.casefold(), s)`). -/
def keyLe (a b : Bytes) : Bool :=
  decide (pyLower a < pyLower b ∨ (pyLower a = pyLower b ∧ a ≤ b))

/-- `SortedUniqueLines.apply`.  Python's `sorted(set(xs), key=...)` is
modelled as `sortLe keyLe` over `xs.dedup`: the sort key is injective,
so the sorted result is the same list for any set iteration order. -/
def apply (pat : Bytes → Bool) (target : Option Bytes) (template : Bytes) : Bytes :=
  let nl := detect_newline [target, some template] (bs "\n")
  let (header_lines, out0) := split_header pat (splitlines template)
  let out_lines := out0 ++
    (match target with
     | some t => (split_header pat (splitlines t)).2
     | none => [])
  let sorted_lines := sortLe keyLe out_lines.dedup
  let sorted_lines := sorted_lines.filter (fun l => !l.isEmpty) ++ [[]]
  joinNL nl (header_lines ++ sorted_lines)

end SortedUniqueLines

/-- An INI document as parsed by `configparser.ConfigParser`: sections in
insertion order, each holding key/value pairs in insertion order.  Keys
are stored after `optionxform` (lowercasing). -/
abbrev IniDoc := List (Bytes × List (Bytes × Bytes))

/-- The errors surfaced by the configparser model and the merge code. -/
inductive IniError where
  | keyError (key : Bytes)
  | missingSectionHeader (source : Bytes)
  | parsingError (source : Bytes)
  | duplicateSection (source sec : Bytes)
  | duplicateOption (source sec key : Bytes)
deriving DecidableEq, Repr

/-- Association-list lookup on string keys (the model of Python dict /
configparser section lookup). -/
def lookupA {B : Type} : List (Bytes × B) → Bytes → Option B
  | [], _ => none
  | e :: t, s => if e.1 = s then some e.2 else lookupA t s

/-- Update an association list in place, appending when the key is new
(the dict semantics of configparser sections). -/
def updateAssoc (kvs : List (Bytes × Bytes)) (k v : Bytes) : List (Bytes × Bytes) :=
  match kvs with
  | [] => [(k, v)]
  | (k0, v0) :: rest =>
    if k0 = k then (k, v) :: rest else (k0, v0) :: updateAssoc rest k v

/-- Section names of a document, in order. -/
def sectionNames (p : IniDoc) : List Bytes := p.map Prod.fst

/-- `parser[section][key]` as an optional lookup (`optionxform`
lowercases the key). -/
def getOption? (p : IniDoc) (sec key : Bytes) : Option Bytes :=
  match lookupA p sec with
  | none => none
  | some kvs => lookupA kvs (pyLower key)

/-- `parser[section][key] = value` for a section already present:
update or append the (lowercased) key inside the section. -/
def setOption (p : IniDoc) (sec key value : Bytes) : IniDoc :=
  match p with
  | [] => []
  | (s, kvs) :: rest =>
    if s = sec then (s, updateAssoc kvs (pyLower key) value) :: rest
    else (s, kvs) :: setOption rest sec key value

/-- `ConfigParserMerge.ensure_section`: add an empty section (at the
end, as `add_section` does) unless it already exists. -/
def ensure_section (p : IniDoc) (sec : Bytes) : IniDoc :=
  if (lookupA p sec).isSome then p else p ++ [(sec, [])]

/-- `parser[section] = mapping`: an existing section is cleared and
repopulated in place; a new section is appended.  Keys pass through
`optionxform`. -/
def setSectionData (p : IniDoc) (sec : Bytes) (data : List (Bytes × Bytes)) : IniDoc :=
  let data' := data.map (fun kv => (pyLower kv.1, kv.2))
  if (lookupA p sec).isSome then
    p.map (fun e => if e.1 = sec then (sec, data') else e)
  else p ++ [(sec, data')]

/-- `ConfigParserMerge.maybe_preserve_key`: for every target section
matching `secPat`, copy each key matching `keyPat` into the template
document, creating the section there if needed. -/
def maybe_preserve_key (tmpl tgt : IniDoc)
    (secPat keyPat : Bytes → Bool) : IniDoc :=
  tgt.foldl
    (fun acc e =>
      if secPat e.1 then
        e.2.foldl
          (fun acc2 kv =>
            if keyPat kv.1 then setOption (ensure_section acc2 e.1) e.1 kv.1 kv.2
            else acc2)
          acc
      else acc)
    tmpl

/-- `ConfigParserMerge.maybe_preserve_sections`: for every target
section matching `secPat`, copy the whole section into the template
document; when an `excluded_keys` pattern is configured, the keys it
matches are first reset to the template section's values — read
unconditionally with `template_parser[section]`, which raises `KeyError`
when the template lacks the section. -/
def preserveSectionStep (secPat : Bytes → Bool)
    (excludedKeys : Option (Bytes → Bool)) (acc : IniDoc)
    (e : Bytes × List (Bytes × Bytes)) : Except IniError IniDoc :=
  if secPat e.1 then
    match excludedKeys with
    | none => pure (setSectionData acc e.1 e.2)
    | some p =>
      match lookupA acc e.1 with
      | none => throw (IniError.keyError e.1)
      | some tkvs =>
        pure (setSectionData acc e.1
          (tkvs.foldl (fun d kv => if p kv.1 then updateAssoc d kv.1 kv.2 else d) e.2))
  else pure acc

def maybe_preserve_sections (tmpl tgt : IniDoc) (secPat : Bytes → Bool)
    (excludedKeys : Option (Bytes → Bool)) : Except IniError IniDoc :=
  tgt.foldlM (preserveSectionStep secPat excludedKeys) tmpl

/-- The validated configuration of `ConfigParserMerge`: compiled
`preserve_keys` and `preserve_sections` rules, regexes modelled as
boolean matchers. -/
structure CPMConfig where
  preserve_keys : List ((Bytes → Bool) × (Bytes → Bool))
  preserve_sections : List ((Bytes → Bool) × Option (Bytes → Bool))

/-- `ConfigParserMerge.merge_configs`. -/
def cpm_merge_configs (cfg : CPMConfig) (tmpl : IniDoc) (tgt : Option IniDoc) :
    Except IniError IniDoc :=
  match tgt with
  | none => pure tmpl
  | some t => do
    let tmpl2 ← cfg.preserve_sections.foldlM
      (fun acc r => maybe_preserve_sections acc t r.1 r.2) tmpl
    pure (cfg.preserve_keys.foldl
      (fun acc r => maybe_preserve_key acc t r.1 r.2) tmpl2)

/-- The state of the configparser line reader: sections built so far
(option values as lists of raw value lines), the current section and
the current option. -/
structure RdState where
  secs : List (Bytes × List (Bytes × List Bytes))
  cursect : Option Bytes
  curopt : Option Bytes

/-- Append a raw value line to option `k` of section `sname`. -/
def addValueLine (secs : List (Bytes × List (Bytes × List Bytes)))
    (sname k extra : Bytes) : List (Bytes × List (Bytes × List Bytes)) :=
  secs.map (fun e =>
    if e.1 = sname then
      (e.1, e.2.map (fun kv => if kv.1 = k then (kv.1, kv.2 ++ [extra]) else kv))
    else e)

/-- Start a new option `k` with first value line `v` in section
`sname`. -/
def addNewOption (secs : List (Bytes × List (Bytes × List Bytes)))
    (sname k v : Bytes) : List (Bytes × List (Bytes × List Bytes)) :=
  secs.map (fun e => if e.1 = sname then (e.1, e.2 ++ [(k, [v])]) else e)

/-- One step of the configparser reader (default options: delimiters
`=` and `:`, full-line comments `#`/`;`, `empty_lines_in_values` on,
strict duplicate checking). -/
def readLineStep (source : Bytes) (st : RdState) (line : Bytes) :
    Except IniError RdState :=
  let stripped := stripWS line
  if stripped.isEmpty then
    match st.cursect, st.curopt with
    | some s, some k => pure { st with secs := addValueLine st.secs s k [] }
    | _, _ => pure st
  else if stripped.head? = some '#' || stripped.head? = some ';' then
    pure st
  else if isPyWS (line.headD ' ') && st.cursect.isSome && st.curopt.isSome then
    match st.cursect, st.curopt with
    | some s, some k => pure { st with secs := addValueLine st.secs s k stripped }
    | _, _ => pure st
  else if stripped.head? = some '[' && (stripped.drop 1).contains ']' then
    let header := (stripped.drop 1).takeWhile (fun c => c ≠ ']')
    if header.isEmpty then throw (IniError.parsingError source)
    else if (st.secs.map Prod.fst).contains header then
      throw (IniError.duplicateSection source header)
    else
      pure ⟨st.secs ++ [(header, [])], some header, none⟩
  else
    match st.cursect with
    | none => throw (IniError.missingSectionHeader source)
    | some s =>
      let keyPart := stripped.takeWhile (fun c => c ≠ '=' && c ≠ ':')
      let rest := stripped.dropWhile (fun c => c ≠ '=' && c ≠ ':')
      match rest with
      | [] => throw (IniError.parsingError source)
      | _ :: valuePart =>
        let k := pyLower (rstripWS keyPart)
        let v := stripWS valuePart
        let cur := (lookupA st.secs s).getD []
        if (cur.map Prod.fst).contains k then
          throw (IniError.duplicateOption source s k)
        else
          pure { st with secs := addNewOption st.secs s k v, curopt := some k }

/-- `configparser`'s `_join_multiline_values`: value lines are joined
with `\n` and the result right-stripped. -/
def joinValueLines (lines : List Bytes) : Bytes :=
  rstripWS (joinNL (bs "\n") lines)

/-- `ConfigParserMerge.parse_config`: normalise newlines, feed each line
to the reader, then join multi-line values. -/
def parse_config (data source : Bytes) : Except IniError IniDoc := do
  let st ← (splitlines data).foldlM (readLineStep source) ⟨[], none, none⟩
  pure (st.secs.map (fun e => (e.1, e.2.map (fun kv => (kv.1, joinValueLines kv.2)))))

/-- Replace `\n` by `\n\t` in a value (what `ConfigParser.write` does to
multi-line values). -/
def indentValueNL : Bytes → Bytes
  | [] => []
  | '\n' :: rest => '\n' :: '\t' :: indentValueNL rest
  | c :: rest => c :: indentValueNL rest

/-- `ConfigParser.write` for one section: the header line, one
`key = value` line per option (value newlines tab-indented), and a
trailing blank line. -/
def writeSection (e : Bytes × List (Bytes × Bytes)) : Bytes :=
  bs "[" ++ e.1 ++ bs "]\n"
    ++ (e.2.map (fun kv => kv.1 ++ bs " = " ++ indentValueNL kv.2 ++ bs "\n")).flatten
    ++ bs "\n"

/-- `ConfigParser.write` for a whole document. -/
def writeDoc (p : IniDoc) : Bytes := (p.map writeSection).flatten

/-- `ConfigParserMerge._sorted_configparser`: sections and keys sorted
lexicographically (the Python version round-trips through
`ConfigParser.write`/`read_string`, which restores the same document for
the well-formed values produced by parsing). -/
def sortDoc (p : IniDoc) : IniDoc :=
  (sortLe (fun a b => decide (a.1 ≤ b.1)) p).map
    (fun e => (e.1, sortLe (fun a b => decide (a.1 ≤ b.1)) e.2))

/-- Expand tabs to four spaces (`content.replace("\t", " " * 4)`). -/
def replaceTab (s : Bytes) : Bytes :=
  (s.map (fun c => if c = '\t' then bs "    " else [c])).flatten

/-- `ConfigParserMerge.parser_to_pretty_output`: sort, serialise, expand
tabs, right-strip every line and join with the detected newline. -/
def parser_to_pretty_output (p : IniDoc) (nl : Bytes) : Bytes :=
  let content := replaceTab (writeDoc (sortDoc p))
  joinNL nl ((splitlines content).map rstripWS)

/-- Parse the optional target document (`apply`'s target branch). -/
def parseTarget (target : Option Bytes) : Except IniError (Option IniDoc) :=
  match target with
  | none => Except.ok none
  | some t =>
    match parse_config t (bs "<target>") with
    | Except.error e => Except.error e
    | Except.ok g => Except.ok (some g)

/-- `ConfigParserMerge.apply` (errors of either parse or of the merge
propagate). -/
def cpm_apply (cfg : CPMConfig) (target : Option Bytes) (template : Bytes) :
    Except IniError Bytes :=
  let nl := detect_newline [target, some template] (bs "\n")
  match parse_config template (bs "<template>") with
  | Except.error e => Except.error e
  | Except.ok tp =>
    match parseTarget target with
    | Except.error e => Except.error e
    | Except.ok tgtp =>
      match cpm_merge_configs cfg tp tgtp with
      | Except.error e => Except.error e
      | Except.ok merged => Except.ok (parser_to_pretty_output merged nl)

/-- The validated configuration of `SetupCfgMerge`:
`ConfigParserMerge`'s rules plus `merge_requirements`. -/
structure SCMConfig extends CPMConfig where
  merge_requirements : List ((Bytes → Bool) × (Bytes → Bool))

/-- `packaging.requirements.Requirement(r).name`, modelled for
well-formed PEP 508 requirement strings as the maximal leading run of
package-name characters (letters, digits, `.`, `_`, `-`). -/
def requirement_name (r : Bytes) : Bytes :=
  r.takeWhile (fun c => c.isAlphanum || c = '.' || c = '_' || c = '-')

/-- `SetupCfgMerge._parse_setupcfg_requirements`: whitespace-split, strip
and drop empties. -/
def parse_setupcfg_requirements (s : Bytes) : List Bytes :=
  ((splitWS s).map stripWS).filter (fun r => !r.isEmpty)

/-- `SetupCfgMerge._parse_requirements`: missing section or key yields
the empty list. -/
def parse_requirements (p : IniDoc) (sec key : Bytes) : List Bytes :=
  match getOption? p sec key with
  | none => []
  | some v => parse_setupcfg_requirements v

/-- The `normalize_requirement` closure: the parsed package name,
lowercased. -/
def normalizeReq (r : Bytes) : Bytes := pyLower (requirement_name r)

/-- The case-insensitive requirement ordering `key=str.casefold`. -/
def reqLe (a b : Bytes) : Bool := decide (pyLower a ≤ pyLower b)

/-- The requirement-list union of `SetupCfgMerge._merge_requirements`:
every target entry is kept verbatim; template entries whose normalised
package name collides with a target entry are dropped; the rest are
appended; the final list is sorted case-insensitively. -/
def merged_requirements (templateReqs targetReqs : List Bytes) : List Bytes :=
  let existing := targetReqs.map normalizeReq
  let wanted := targetReqs ++
    templateReqs.filter (fun r => !existing.contains (normalizeReq r))
  sortLe reqLe wanted

/-- `SetupCfgMerge._dump_setupcfg_requirements`: join with the newline,
with a leading blank entry. -/
def dump_setupcfg_requirements (reqs : List Bytes) (nl : Bytes) : Bytes :=
  joinNL nl (([] : Bytes) :: reqs)

/-- `SetupCfgMerge._merge_requirements` for one (section, key): write
the merged, serialised list into both documents (into the target too, so
that the later generic preserve rules copy the merged value rather than
the raw target value). -/
def merge_requirements_step (tmpl : IniDoc) (tgt : Option IniDoc)
    (sec key nl : Bytes) : IniDoc × Option IniDoc :=
  let treqs := parse_requirements tmpl sec key
  let greqs := match tgt with | some g => parse_requirements g sec key | none => []
  let result := dump_setupcfg_requirements (merged_requirements treqs greqs) nl
  (setOption (ensure_section tmpl sec) sec key result,
   tgt.map (fun g => setOption (ensure_section g sec) sec key result))

/-- The set of (section, key) pairs matched by the `merge_requirements`
rules, collected from the target and the template.  Python collects them
in a `set` iterated in unspecified order; merges of distinct pairs
commute, so the model fixes the collection order and deduplicates. -/
def matchedRequirementKeys (rules : List ((Bytes → Bool) × (Bytes → Bool)))
    (tmpl : IniDoc) (tgt : Option IniDoc) : List (Bytes × Bytes) :=
  (rules.foldl
    (fun acc rule =>
      let fromTgt :=
        match tgt with
        | some g => g.foldl
            (fun a e =>
              if rule.1 e.1 then
                a ++ (e.2.filter (fun kv => rule.2 kv.1)).map (fun kv => (e.1, kv.1))
              else a)
            []
        | none => []
      let fromTmpl := tmpl.foldl
        (fun a e =>
          if rule.1 e.1 then
            a ++ (e.2.filter (fun kv => rule.2 kv.1)).map (fun kv => (e.1, kv.1))
          else a)
        []
      acc ++ fromTgt ++ fromTmpl)
    []).dedup

/-- `SetupCfgMerge.merge_configs`: merge the requirement lists of every
matched (section, key) first, then run the generic
`ConfigParserMerge.merge_configs` preserve rules. -/
def scm_merge_configs (cfg : SCMConfig) (tmpl : IniDoc) (tgt : Option IniDoc)
    (nl : Bytes) : Except IniError IniDoc :=
  let pairs := matchedRequirementKeys cfg.merge_requirements tmpl tgt
  let st := pairs.foldl
    (fun (acc : IniDoc × Option IniDoc) p =>
      merge_requirements_step acc.1 acc.2 p.1 p.2 nl)
    (tmpl, tgt)
  cpm_merge_configs cfg.toCPMConfig st.1 st.2

/-- `SetupCfgMerge.apply` (inherited from `ConfigParserMerge`, with the
overridden `merge_configs`). -/
def scm_apply (cfg : SCMConfig) (target : Option Bytes) (template : Bytes) :
    Except IniError Bytes :=
  let nl := detect_newline [target, some template] (bs "\n")
  match parse_config template (bs "<template>") with
  | Except.error e => Except.error e
  | Except.ok tp =>
    match parseTarget target with
    | Except.error e => Except.error e
    | Except.ok tgtp =>
      match scm_merge_configs cfg tp tgtp nl with
      | Except.error e => Except.error e
      | Except.ok merged => Except.ok (parser_to_pretty_output merged nl)

/-- Character-class membership for the glob matcher (`a-z` ranges plus
literal characters, as in `fnmatch`'s translated regex classes). -/
def inBracket : Bytes → Char → Bool
  | [], _ => false
  | a :: '-' :: b :: rest, c => (decide (a ≤ c) && decide (c ≤ b)) || inBracket rest c
  | a :: rest, c => (a = c) || inBracket rest c

/-- Scan for the closing `]` of a glob character class, returning the
class content and the remaining pattern. -/
def findCloseBr : Bytes → Option (Bytes × Bytes)
  | [] => none
  | ']' :: rest => some ([], rest)
  | c :: rest =>
    match findCloseBr rest with
    | some (a, b) => some (c :: a, b)
    | none => none

/-- Parse a glob character class after the opening `[`: a leading `!`
negates, a `]` in first content position is literal, an unclosed class
fails (the `[` is then a literal character). -/
def parseBracket (l : Bytes) : Option (Bool × Bytes × Bytes) :=
  match l with
  | '!' :: ']' :: t => (findCloseBr t).map (fun e => (true, ']' :: e.1, e.2))
  | '!' :: t => (findCloseBr t).map (fun e => (true, e.1, e.2))
  | ']' :: t => (findCloseBr t).map (fun e => (false, ']' :: e.1, e.2))
  | _ => (findCloseBr l).map (fun e => (false, e.1, e.2))

/-- Fuelled core of the shell-glob matcher `fnmatch.fnmatchcase`
(`*`, `?`, `[...]` classes; on POSIX `fnmatch.fnmatch` adds only an
identity `normcase`).  Path separators are ordinary characters. -/
def globMatchF : Nat → Bytes → Bytes → Bool
  | 0, _, _ => false
  | _ + 1, [], s => s.isEmpty
  | fuel + 1, '*' :: pr, s =>
    globMatchF fuel pr s ||
      (match s with
       | [] => false
       | _ :: sr => globMatchF fuel ('*' :: pr) sr)
  | fuel + 1, '?' :: pr, s =>
    (match s with
     | [] => false
     | _ :: sr => globMatchF fuel pr sr)
  | fuel + 1, '[' :: pr, s =>
    (match parseBracket pr with
     | some (neg, content, rest) =>
       (match s with
        | [] => false
        | d :: sr => (neg != inBracket content d) && globMatchF fuel rest sr)
     | none =>
       (match s with
        | [] => false
        | d :: sr => (d = '[') && globMatchF fuel pr sr))
  | fuel + 1, c :: pr, s =>
    (match s with
     | [] => false
     | d :: sr => (c = d) && globMatchF fuel pr sr)

/-- `fnmatch.fnmatch(path, pattern)` on a POSIX platform.  Every matcher
step strictly shrinks pattern-length plus path-length, so this fuel is
always sufficient. -/
def fnmatch (path pattern : Bytes) : Bool :=
  globMatchF (pattern.length + path.length + 1) pattern path

/-- `scaraplate.rollup.get_strategy`: iterate the strategy mapping in
lexicographically sorted key order and return the node of the first
pattern matching the path, falling back to the default node.  (Python
sorts the `dict.items()` pairs; dict keys are unique, so the pairs sort
by key.) -/
def get_strategy {N : Type} (strategies_mapping : List (Bytes × N))
    (default_strategy : N) (path : Bytes) : N :=
  match (sortLe (fun a b => decide (a.1 ≤ b.1)) strategies_mapping).find?
      (fun e => fnmatch path e.1) with
  | some e => e.2
  | none => default_strategy

/-- Modelled from the spec: `strategies_mapping` keys may contain
cookiecutter variable placeholders, substituted from the context
dictionary before glob matching.  The rendering step lives in
`get_scaraplate_yaml_strategies`, which is absent from the provided
sources (only this older `config.py` is present); the spec's
hard-error on an unknown placeholder is not needed by the verified
scenario and is not modelled. -/
def renderPatternF : Nat → List (Bytes × Bytes) → Bytes → Bytes
  | 0, _, s => s
  | fuel + 1, ctx, s =>
    match s with
    | [] => []
    | '{' :: '{' :: rest =>
      let name := stripWS (rest.takeWhile (fun c => c ≠ '}'))
      let rest2 := (rest.dropWhile (fun c => c ≠ '}')).drop 2
      ((List.lookup name ctx).getD []) ++ renderPatternF fuel ctx rest2
    | c :: rest => c :: renderPatternF fuel ctx rest

/-- Modelled from the spec: render one `strategies_mapping` pattern key
against the cookiecutter context (see `renderPatternF`). -/
def renderPattern (ctx : List (Bytes × Bytes)) (s : Bytes) : Bytes :=
  renderPatternF (s.length + 1) ctx s

/-- Validation errors raised while loading a strategy configuration
against its schema. -/
inductive SchemaError where
  | unknownField (name : Bytes)
  | missingField (name : Bytes)
deriving DecidableEq, Repr

/-- A strategy schema as a field table: each declared field name with
its `missing=` default (`none` models a required field).  `V` is the
(strategy-specific) type of validated field values. -/
abbrev SchemaFields (V : Type) := List (Bytes × Option V)

/-- `NoExtraKeysSchema.check_unknown_fields`: any data key not declared
by the schema raises a validation error. -/
def check_unknown_fields {V : Type} (fields : SchemaFields V)
    (data : List (Bytes × V)) : Except SchemaError Unit :=
  match (data.map Prod.fst).filter
      (fun k => !(fields.map Prod.fst).contains k) with
  | [] => pure ()
  | k :: _ => throw (SchemaError.unknownField k)

/-- Marshmallow `Schema.load` as used by `Strategy.__init__`
(`marshmallow_load_data`): reject unknown keys, then produce the
validated mapping, substituting each declared default for an omitted
key and failing on an omitted required field. -/
def loadFieldStep {V : Type} (data : List (Bytes × V))
    (acc : List (Bytes × V)) (f : Bytes × Option V) :
    Except SchemaError (List (Bytes × V)) :=
  match List.lookup f.1 data with
  | some v => pure (acc ++ [(f.1, v)])
  | none =>
    match f.2 with
    | some d => pure (acc ++ [(f.1, d)])
    | none => throw (SchemaError.missingField f.1)

def marshmallow_load_data {V : Type} (fields : SchemaFields V)
    (data : List (Bytes × V)) : Except SchemaError (List (Bytes × V)) := do
  check_unknown_fields fields data
  fields.foldlM (loadFieldStep data) []

/-- The specification's description of a successfully validated
configuration, stated from the spec's words for comparison with
`marshmallow_load_data`: each declared field carries the given value
when the key is present and the declared default otherwise. -/
def loadedSpec {V : Type} (fields : SchemaFields V) (data : List (Bytes × V)) :
    List (Bytes × V) :=
  fields.filterMap (fun f =>
    match List.lookup f.1 data with
    | some v => some (f.1, v)
    | none => f.2.map (fun d => (f.1, d)))

/-- `Strategy.__init__`: the configuration is validated against the
strategy's schema during construction. -/
def strategyConstruct {V : Type} (fields : SchemaFields V)
    (config : List (Bytes × V)) : Except SchemaError (List (Bytes × V)) :=
  marshmallow_load_data fields config

/-- Constructing a strategy and then calling `apply()`: when
construction fails, `apply` is never invoked. -/
def strategyRun {V R : Type} (fields : SchemaFields V)
    (config : List (Bytes × V)) (applyFn : List (Bytes × V) → R) :
    Except SchemaError R :=
  (strategyConstruct fields config).map applyFn

/-- Errors raised by `scaraplate.config.class_from_str`. -/
inductive ClassRefError where
  | invalidRef
  | attributeNotFound
  | notAStrategySubclass
deriving DecidableEq, Repr

/-- `scaraplate.config.class_from_str`.  The Python-runtime collaborators
are parameters: `resolveAttr` models importlib module import plus
`getattr`, and `issub` models `issubclass`.  The repository's own logic
is the dotted-reference check and the subclass/base rejection: a
resolved class that is not a subclass of `ensure` (or is `ensure`
itself) is a configuration error. -/
def class_from_str {C : Type} [DecidableEq C] (resolveAttr : Bytes → Option C)
    (issub : C → C → Bool) (ensure : Option C) (ref : Bytes) :
    Except ClassRefError C :=
  if !ref.contains '.' then throw ClassRefError.invalidRef
  else
    match resolveAttr ref with
    | none => throw ClassRefError.attributeNotFound
    | some cls =>
      match ensure with
      | some base =>
        if !issub cls base || cls = base then throw ClassRefError.notAStrategySubclass
        else pure cls
      | none => pure cls

/-- `scaraplate.config._parse_strategy_node` for the string form of a
strategy reference: resolve the class (ensuring it is a proper
`Strategy` subclass) and pair it with the given config to form the
`StrategyNode`. -/
def parse_strategy_node {C : Type} [DecidableEq C] (resolveAttr : Bytes → Option C)
    (issub : C → C → Bool) (strategyBase : C) (ref : Bytes)
    (config : List (Bytes × Bytes)) :
    Except ClassRefError (C × List (Bytes × Bytes)) := do
  let cls ← class_from_str resolveAttr issub (some strategyBase) ref
  pure (cls, config)

/-- Concrete example configuration: the schema defaults of
`TemplateHash`. -/
def exCfg : THConfig := THConfig.default

/-- Concrete example configuration with `max_line_length = 10`. -/
def cfg10ex : THConfig := ⟨bs "#", some 10, bs "  # noqa"⟩

/-- Concrete example template metadata, clean checkout. -/
def exMetaClean : TemplateMeta := ⟨bs "https://example.com/c/1", false⟩

/-- Concrete example template metadata, dirty checkout. -/
def exMetaDirty : TemplateMeta := ⟨bs "https://example.com/c/1", true⟩

/-- A target produced by one clean `TemplateHash.apply` run on the
template `hi` (it contains the searched comment block). -/
def exTargetClean : Bytes := TemplateHash.apply exCfg exMetaClean none (bs "hi")

/-- Concrete cookiecutter context for the dispatch example. -/
def exCtx : List (Bytes × Bytes) := [(bs "var", bs "mod")]

/-- Concrete strategies mapping for the dispatch example (nodes are
numbered; pattern two is rendered from `src/\x7b\x7bvar\x7d\x7d.py`). -/
def exMapping : List (Bytes × Nat) :=
  [(bs "*.txt", 1), (renderPattern exCtx (bs "src/\x7b\x7bvar\x7d\x7d.py"), 2)]

/-- Matcher for the section regex `^options$`. -/
def matchOptions (s : Bytes) : Bool := s = bs "options"

/-- Matcher for the key regex `^install_requires$`. -/
def matchInstallRequires (k : Bytes) : Bool := k = bs "install_requires"

/-- Matcher for the section regex `^tox$`. -/
def matchTox (s : Bytes) : Bool := s = bs "tox"

/-- Matcher matching everything. -/
def matchAny (_ : Bytes) : Bool := true

/-- Concrete `SetupCfgMerge` configuration: merge the requirements of
`[options] install_requires`, no preserve rules. -/
def exSCMCfg : SCMConfig := ⟨⟨[], []⟩, [(matchOptions, matchInstallRequires)]⟩

/-- Concrete `SetupCfgMerge` configuration where `preserve_keys` also
matches the merged key. -/
def exSCMCfgPreserve : SCMConfig :=
  ⟨⟨[(matchOptions, matchInstallRequires)], []⟩, [(matchOptions, matchInstallRequires)]⟩

/-- Concrete template `setup.cfg` content. -/
def exSetupCfgTemplate : Bytes := bs "[options]\ninstall_requires =\n    foo==1.0\n"

/-- Concrete target `setup.cfg` content. -/
def exSetupCfgTarget : Bytes :=
  bs "[options]\ninstall_requires =\n    FOO==2.0\n    bar==1.0\n"

/-- Concrete `ConfigParserMerge` configuration preserving `[tox]` with
an `excluded_keys` pattern. -/
def exCPMCfgExcl : CPMConfig := ⟨[], [(matchTox, some matchAny)]⟩

/-- Concrete `ConfigParserMerge` configuration preserving `[tox]`
without `excluded_keys`. -/
def exCPMCfgNoExcl : CPMConfig := ⟨[], [(matchTox, none)]⟩

/-- Concrete schema field table (the `TemplateHash` schema shape over
string values): every field optional with a default. -/
def exSchemaFields : SchemaFields Bytes :=
  [(bs "line_comment_start", some (bs "#")),
   (bs "max_line_length", some (bs "None")),
   (bs "max_line_linter_ignore_mark", some (bs "  # noqa"))]

/-- Concrete strategy config with an unknown key. -/
def exBadConfig : List (Bytes × Bytes) := [(bs "max_line_lenght", bs "87")]

/-- Concrete strategy config with one declared key. -/
def exGoodConfig : List (Bytes × Bytes) := [(bs "line_comment_start", bs "//")]

/-- Concrete class environment for `class_from_str`: class 0 is the
abstract `Strategy` base, class 1 a proper subclass, class 2 an
unrelated class. -/
def exResolveAttr (ref : Bytes) : Option Nat :=
  if ref = bs "scaraplate.strategies.Strategy" then some 0
  else if ref = bs "scaraplate.strategies.Overwrite" then some 1
  else if ref = bs "mypackage.mymodule.NotAStrategy" then some 2
  else none

/-- Concrete `issubclass` relation for the example classes. -/
def exIssub (cls base : Nat) : Bool :=
  cls = base || (cls = 1 && base = 0)

/-- A chunk free of carriage returns and line feeds. -/
def noCRLF (l : Bytes) : Prop := ¬ '\r' ∈ l ∧ ¬ '\n' ∈ l

/-- `out` uses `nl` as its only line separator: it is the join, by `nl`,
of chunks containing no CR or LF characters. -/
def joinedWith (nl out : Bytes) : Prop :=
  ∃ ls : List Bytes, (∀ l ∈ ls, noCRLF l) ∧ out = joinNL nl ls

theorem mem_insertLe {α : Type} (le : α → α → Bool) (x a : α) (l : List α) :
    a ∈ insertLe le x l ↔ a = x ∨ a ∈ l := by
  induction l with
  | nil => simp [insertLe]
  | cons y ys ih =>
    by_cases h : le y x
    · simp only [insertLe, h, if_pos, List.mem_cons, ih]
      try tauto
    · simp only [insertLe, h, if_neg, Bool.not_eq_true, List.mem_cons]
      try tauto

theorem mem_sortLe {α : Type} (le : α → α → Bool) (a : α) (l : List α) :
    a ∈ sortLe le l ↔ a ∈ l := by
  induction l with
  | nil => simp [sortLe]
  | cons x xs ih => simp [sortLe, mem_insertLe, ih]

theorem perm_insertLe {α : Type} (le : α → α → Bool) (x : α) (l : List α) :
    (insertLe le x l).Perm (x :: l) := by
  induction l with
  | nil => simp [insertLe]
  | cons y ys ih =>
    by_cases h : le y x
    · simp only [insertLe, h, if_pos]
      exact ((ih.cons y).trans (List.Perm.swap x y ys))
    · simp [insertLe, h]

theorem perm_sortLe {α : Type} (le : α → α → Bool) (l : List α) :
    (sortLe le l).Perm l := by
  induction l with
  | nil => simp [sortLe]
  | cons x xs ih =>
    exact (perm_insertLe le x (sortLe le xs)).trans (ih.cons x)

theorem sorted_insertLe {α : Type} (le : α → α → Bool)
    (htrans : ∀ a b c, le a b = true → le b c = true → le a c = true)
    (htotal : ∀ a b, le a b = true ∨ le b a = true)
    (x : α) (l : List α)
    (hl : l.Pairwise (fun a b => le a b = true)) :
    (insertLe le x l).Pairwise (fun a b => le a b = true) := by
  induction l with
  | nil => simp [insertLe]
  | cons y ys ih =>
    rcases List.pairwise_cons.mp hl with ⟨hy, hys⟩
    by_cases h : le y x
    · simp only [insertLe, h, if_pos]
      refine List.pairwise_cons.mpr ⟨?_, ih hys⟩
      intro a ha
      rcases (mem_insertLe le x a ys).mp ha with rfl | ha
      · exact h
      · exact hy a ha
    · simp only [insertLe, h, if_neg, Bool.not_eq_true]
      refine List.pairwise_cons.mpr ⟨?_, hl⟩
      intro a ha
      have hxy : le x y = true := by
        rcases htotal x y with h1 | h1
        · exact h1
        · exact absurd h1 (by simp [h])
      rcases List.mem_cons.mp ha with rfl | ha
      · exact hxy
      · exact htrans x y a hxy (hy a ha)

theorem sorted_sortLe {α : Type} (le : α → α → Bool)
    (htrans : ∀ a b c, le a b = true → le b c = true → le a c = true)
    (htotal : ∀ a b, le a b = true ∨ le b a = true)
    (l : List α) :
    (sortLe le l).Pairwise (fun a b => le a b = true) := by
  induction l with
  | nil => simp [sortLe]
  | cons x xs ih => exact sorted_insertLe le htrans htotal x (sortLe le xs) ih

theorem keyLe_trans (a b c : Bytes) (h1 : SortedUniqueLines.keyLe a b = true)
    (h2 : SortedUniqueLines.keyLe b c = true) :
    SortedUniqueLines.keyLe a c = true := by
  simp only [SortedUniqueLines.keyLe, decide_eq_true_eq] at h1 h2 ⊢
  rcases h1 with h1 | ⟨he1, hl1⟩
  · rcases h2 with h2 | ⟨he2, _⟩
    · exact Or.inl (lt_trans h1 h2)
    · exact Or.inl (he2 ▸ h1)
  · rcases h2 with h2 | ⟨he2, hl2⟩
    · exact Or.inl (he1 ▸ h2)
    · exact Or.inr ⟨he1.trans he2, le_trans hl1 hl2⟩

theorem keyLe_total (a b : Bytes) :
    SortedUniqueLines.keyLe a b = true ∨ SortedUniqueLines.keyLe b a = true := by
  simp only [SortedUniqueLines.keyLe, decide_eq_true_eq]
  rcases lt_trichotomy (pyLower a) (pyLower b) with h | h | h
  · exact Or.inl (Or.inl h)
  · rcases le_total a b with hl | hl
    · exact Or.inl (Or.inr ⟨h, hl⟩)
    · exact Or.inr (Or.inr ⟨h.symm, hl⟩)
  · exact Or.inr (Or.inl h)

theorem find?_min_of_pairwise {α : Type} {R : α → α → Prop} {p : α → Bool} :
    ∀ {l : List α} {x : α}, l.Pairwise R → l.find? p = some x →
      (∀ a, R a a) → ∀ y ∈ l, p y = true → R x y := by
  intro l
  induction l with
  | nil =>
    intro x _ hf _
    simp [List.find?] at hf
  | cons a t ih =>
    intro x hp hf hrefl y hy hpy
    rcases List.pairwise_cons.mp hp with ⟨ha, ht⟩
    by_cases hpa : p a = true
    · have hx : x = a := by
        have := List.find?_cons_of_pos t hpa ▸ hf
        simpa using this.symm
      subst hx
      rcases List.mem_cons.mp hy with rfl | hy'
      · exact hrefl y
      · exact ha y hy'
    · have hf' : t.find? p = some x := by
        have hfeq := List.find?_cons_of_neg t (by simpa using hpa)
        rw [hfeq] at hf
        exact hf
      rcases List.mem_cons.mp hy with rfl | hy'
      · exact absurd hpy hpa
      · exact ih ht hf' hrefl y hy' hpy

/-- C2: `SortedUniqueLines.apply` keeps the template's header, discards
the target's, pools the body lines, deduplicates, sorts by the
(casefolded, original) key, drops empty body lines, appends exactly one
trailing empty line, joins with the detected newline; and on the
concrete inputs of the specification produces exactly the expected
bytes. -/
theorem sortedUniqueLines_spec :
    (∀ (pat : Bytes → Bool) (template target : Bytes),
      ∃ body : List Bytes,
        SortedUniqueLines.apply pat (some target) template =
          joinNL (detect_newline [some target, some template] (bs "\n"))
            ((SortedUniqueLines.split_header pat (splitlines template)).1 ++
              body ++ [[]]) ∧
        body.Pairwise (fun a b => SortedUniqueLines.keyLe a b = true) ∧
        body.Nodup ∧
        (∀ l, l ∈ body ↔ (l ≠ [] ∧
          (l ∈ (SortedUniqueLines.split_header pat (splitlines template)).2 ∨
           l ∈ (SortedUniqueLines.split_header pat (splitlines target)).2)))) ∧
    SortedUniqueLines.apply SortedUniqueLines.defaultCommentMatch
      (some (bs "# ignored\napple")) (bs "# h\nzebra\nApple") =
      bs "# h\nApple\napple\nzebra\n" := by
  constructor
  · intro pat template target
    refine ⟨(sortLe SortedUniqueLines.keyLe
      (((SortedUniqueLines.split_header pat (splitlines template)).2 ++
        (SortedUniqueLines.split_header pat (splitlines target)).2).dedup)).filter
        (fun l => !l.isEmpty), ?_, ?_, ?_, ?_⟩
    · simp [SortedUniqueLines.apply, List.append_assoc]
    · exact (sorted_sortLe SortedUniqueLines.keyLe keyLe_trans keyLe_total _).filter _
    · exact ((perm_sortLe SortedUniqueLines.keyLe _).nodup_iff.mpr
        (List.nodup_dedup _)).filter _
    · intro l
      simp [List.mem_filter, mem_sortLe, List.mem_dedup, List.mem_append,
        List.isEmpty_iff, and_comm]
  · decide

/-- C5: strategy dispatch is deterministic and total — the resolved node
belongs to a matching pattern that is lexicographically least among all
matching pattern keys, and the default node is returned when no pattern
matches; on the concrete patterns of the specification, `src/mod.py`
resolves to the rendered second pattern, `other.txt` to the first and
`readme` to the default. -/
theorem getStrategy_first_sorted_match :
    (∀ (N : Type) (mapping : List (Bytes × N)) (dflt : N) (path : Bytes),
      (∃ e, e ∈ mapping ∧ fnmatch path e.1 = true ∧
        get_strategy mapping dflt path = e.2 ∧
        ∀ e2 ∈ mapping, fnmatch path e2.1 = true → e.1 ≤ e2.1) ∨
      ((∀ e ∈ mapping, fnmatch path e.1 = false) ∧
        get_strategy mapping dflt path = dflt)) ∧
    get_strategy exMapping 0 (bs "src/mod.py") = 2 ∧
    get_strategy exMapping 0 (bs "other.txt") = 1 ∧
    get_strategy exMapping 0 (bs "readme") = 0 := by
  refine ⟨?_, by decide, by decide, by decide⟩
  intro N mapping dflt path
  have hperm := perm_sortLe (fun a b : Bytes × N => decide (a.1 ≤ b.1)) mapping
  cases hf : (sortLe (fun a b : Bytes × N => decide (a.1 ≤ b.1)) mapping).find?
      (fun e => fnmatch path e.1) with
  | none =>
    right
    have hnone := List.find?_eq_none.mp hf
    refine ⟨?_, ?_⟩
    · intro e he
      have h1 := hnone e (hperm.mem_iff.mpr he)
      simpa using h1
    · simp only [get_strategy, hf]
  | some e =>
    left
    have htrans : ∀ a b c : Bytes × N, decide (a.1 ≤ b.1) = true →
        decide (b.1 ≤ c.1) = true → decide (a.1 ≤ c.1) = true := by
      intro a b c h1 h2
      exact decide_eq_true (le_trans (of_decide_eq_true h1) (of_decide_eq_true h2))
    have htotal : ∀ a b : Bytes × N,
        decide (a.1 ≤ b.1) = true ∨ decide (b.1 ≤ a.1) = true := by
      intro a b
      rcases le_total a.1 b.1 with h | h
      · exact Or.inl (decide_eq_true h)
      · exact Or.inr (decide_eq_true h)
    have hsorted := sorted_sortLe (fun a b : Bytes × N => decide (a.1 ≤ b.1))
      htrans htotal mapping
    refine ⟨e, hperm.mem_iff.mp (List.mem_of_find?_eq_some hf),
      by simpa using List.find?_some hf, by simp only [get_strategy, hf], ?_⟩
    intro e2 he2 hm2
    have hmin := find?_min_of_pairwise (R := fun a b : Bytes × N =>
        decide (a.1 ≤ b.1) = true) hsorted hf
      (fun a => decide_eq_true (le_refl a.1)) e2 (hperm.mem_iff.mpr he2)
      (by simpa using hm2)
    exact of_decide_eq_true hmin

/-- Witness for C5, instantiating the general disjunction at the
concrete mapping and the path `other.txt`. -/
theorem getStrategy_first_sorted_match_witness :
    (∃ e, e ∈ exMapping ∧ fnmatch (bs "other.txt") e.1 = true ∧
      get_strategy exMapping 0 (bs "other.txt") = e.2 ∧
      ∀ e2 ∈ exMapping, fnmatch (bs "other.txt") e2.1 = true → e.1 ≤ e2.1) ∨
    ((∀ e ∈ exMapping, fnmatch (bs "other.txt") e.1 = false) ∧
      get_strategy exMapping 0 (bs "other.txt") = 0) :=
  getStrategy_first_sorted_match.1 Nat exMapping 0 (bs "other.txt")

theorem loadFold_ok {V : Type} (data : List (Bytes × V)) :
    ∀ (fields : SchemaFields V) (acc : List (Bytes × V)),
      (∀ f ∈ fields, f.2.isSome ∨ (List.lookup f.1 data).isSome) →
      List.foldlM (loadFieldStep data) acc fields =
        Except.ok (acc ++ loadedSpec fields data) := by
  intro fields
  induction fields with
  | nil =>
    intro acc _
    simp only [List.foldlM_nil, loadedSpec, List.filterMap_nil, List.append_nil]
    rfl
  | cons f t ih =>
    intro acc h
    have hf := h f (List.mem_cons_self f t)
    cases hl : List.lookup f.1 data with
    | some v =>
      rw [List.foldlM_cons]
      simp only [loadFieldStep, hl, pure_bind]
      rw [ih (acc ++ [(f.1, v)]) (fun g hg => h g (List.mem_cons_of_mem f hg))]
      simp [loadedSpec, hl]
    | none =>
      cases hd : f.2 with
      | some d =>
        rw [List.foldlM_cons]
        simp only [loadFieldStep, hl, hd, pure_bind]
        rw [ih (acc ++ [(f.1, d)]) (fun g hg => h g (List.mem_cons_of_mem f hg))]
        simp [loadedSpec, hl, hd]
      | none =>
        rcases hf with hf | hf
        · rw [hd] at hf
          simp at hf
        · rw [hl] at hf
          simp at hf

/-- C8: for every strategy schema, a configuration mapping with a key
not declared by the schema fails validation during construction (so
`apply` is never invoked), while a configuration whose keys are all
declared loads successfully with declared defaults substituted for
omitted keys. -/
theorem strategy_config_validation :
    (∀ (V R : Type) (fields : SchemaFields V) (config : List (Bytes × V))
       (applyFn : List (Bytes × V) → R) (k : Bytes),
      k ∈ config.map Prod.fst → ¬ k ∈ fields.map Prod.fst →
      ∃ u, strategyRun fields config applyFn =
        Except.error (SchemaError.unknownField u)) ∧
    (∀ (V R : Type) (fields : SchemaFields V) (config : List (Bytes × V))
       (applyFn : List (Bytes × V) → R),
      (∀ k ∈ config.map Prod.fst, k ∈ fields.map Prod.fst) →
      (∀ f ∈ fields, f.2.isSome ∨ (List.lookup f.1 config).isSome) →
      strategyRun fields config applyFn =
        Except.ok (applyFn (loadedSpec fields config))) := by
  constructor
  · intro V R fields config applyFn k hk hunk
    have hmem : k ∈ (config.map Prod.fst).filter
        (fun k => !(fields.map Prod.fst).contains k) := by
      rw [List.mem_filter]
      exact ⟨hk, by simpa using hunk⟩
    rcases List.exists_cons_of_ne_nil (List.ne_nil_of_mem hmem) with ⟨u, rest, heq⟩
    refine ⟨u, ?_⟩
    simp only [strategyRun, strategyConstruct, marshmallow_load_data,
      check_unknown_fields, heq]
    rfl
  · intro V R fields config applyFn hk hreq
    have hfilter : (config.map Prod.fst).filter
        (fun k => !(fields.map Prod.fst).contains k) = [] := by
      rw [List.filter_eq_nil_iff]
      intro a ha
      simpa using hk a ha
    simp only [strategyRun, strategyConstruct, marshmallow_load_data,
      check_unknown_fields, hfilter]
    rw [show ((pure () : Except SchemaError Unit) >>= fun _ =>
      List.foldlM (loadFieldStep config) [] fields) =
        List.foldlM (loadFieldStep config) [] fields from pure_bind () _]
    rw [loadFold_ok config fields [] hreq]
    rfl

/-- Witness for C8: an unknown key (a typo of `max_line_length`) is
rejected, and a config giving only `line_comment_start` loads with the
two remaining defaults substituted. -/
theorem strategy_config_validation_witness :
    (∃ u, strategyRun exSchemaFields exBadConfig id =
      Except.error (SchemaError.unknownField u)) ∧
    strategyRun exSchemaFields exGoodConfig id =
      Except.ok (loadedSpec exSchemaFields exGoodConfig) :=
  ⟨strategy_config_validation.1 Bytes (List (Bytes × Bytes)) exSchemaFields
      exBadConfig id (bs "max_line_lenght") (by decide) (by decide),
   strategy_config_validation.2 Bytes (List (Bytes × Bytes)) exSchemaFields
      exGoodConfig id (by decide) (by decide)⟩

/-- C9: resolving a strategy reference fails with a configuration error
whenever the dotted name resolves to a class that is not a subclass of
the `Strategy` base or is the base itself, and succeeds (returning that
class in the strategy node) for a proper `Strategy` subclass. -/
theorem classFromStr_rejects_nonstrategy {C : Type} [DecidableEq C]
    (resolveAttr : Bytes → Option C) (issub : C → C → Bool) (base cls : C)
    (ref : Bytes) (config : List (Bytes × Bytes))
    (hdot : ref.contains '.' = true) (hres : resolveAttr ref = some cls) :
    ((issub cls base = false ∨ cls = base) →
      parse_strategy_node resolveAttr issub base ref config =
        Except.error ClassRefError.notAStrategySubclass) ∧
    (issub cls base = true → cls ≠ base →
      class_from_str resolveAttr issub (some base) ref = Except.ok cls ∧
      parse_strategy_node resolveAttr issub base ref config =
        Except.ok (cls, config)) := by
  have hm : '.' ∈ ref := by simpa using hdot
  constructor
  · intro h
    rcases h with h | h <;>
      simp [parse_strategy_node, class_from_str, hdot, hm, hres, h] <;>
      try rfl
  · intro h1 h2
    constructor <;>
      simp [parse_strategy_node, class_from_str, hdot, hm, hres, h1, h2] <;>
      try rfl

/-- Witness for C9: the example environment resolves a proper subclass
reference to a strategy node. -/
theorem classFromStr_rejects_nonstrategy_witness :
    class_from_str exResolveAttr exIssub (some 0)
      (bs "scaraplate.strategies.Overwrite") = Except.ok 1 ∧
    parse_strategy_node exResolveAttr exIssub 0
      (bs "scaraplate.strategies.Overwrite") [] = Except.ok (1, []) :=
  (classFromStr_rejects_nonstrategy exResolveAttr exIssub 0 1
    (bs "scaraplate.strategies.Overwrite") [] (by decide) (by decide)).2
    (by decide) (by decide)

theorem lookupA_map_replace {B : Type} (sec : Bytes) (d' : B) :
    ∀ (p : List (Bytes × B)), (lookupA p sec).isSome →
      lookupA (p.map (fun e => if e.1 = sec then (sec, d') else e)) sec = some d' := by
  intro p
  induction p with
  | nil => intro h; simp [lookupA] at h
  | cons e t ih =>
    intro h
    by_cases he : e.1 = sec
    · simp [lookupA, he]
    · have h' : (lookupA t sec).isSome := by simpa [lookupA, he] using h
      simpa [lookupA, he] using ih h'

theorem lookupA_append_single {B : Type} (sec : Bytes) (d' : B) :
    ∀ (p : List (Bytes × B)), lookupA p sec = none →
      lookupA (p ++ [(sec, d')]) sec = some d' := by
  intro p
  induction p with
  | nil => intro _; simp [lookupA]
  | cons e t ih =>
    intro h
    by_cases he : e.1 = sec
    · simp [lookupA, he] at h
    · have h' : lookupA t sec = none := by simpa [lookupA, he] using h
      simpa [lookupA, he] using ih h'

theorem lookupA_setSectionData_self (p : IniDoc) (sec : Bytes)
    (d : List (Bytes × Bytes)) :
    lookupA (setSectionData p sec d) sec =
      some (d.map (fun kv => (pyLower kv.1, kv.2))) := by
  unfold setSectionData
  by_cases h : (lookupA p sec).isSome
  · simp only [h, if_true]
    exact lookupA_map_replace sec _ p h
  · simp only [h, if_false]
    exact lookupA_append_single sec _ p (Option.not_isSome_iff_eq_none.mp h)

theorem lookupA_map_replace_ne {B : Type} (sec s : Bytes) (d' : B) (hs : s ≠ sec) :
    ∀ (p : List (Bytes × B)),
      lookupA (p.map (fun e => if e.1 = sec then (sec, d') else e)) s = lookupA p s := by
  intro p
  induction p with
  | nil => simp [lookupA]
  | cons e t ih =>
    by_cases he : e.1 = sec
    · have : sec ≠ s := fun hss => hs hss.symm
      simp [lookupA, he, this, ih]
    · by_cases hes : e.1 = s
      · simp [lookupA, he, hes, hs]
      · simp [lookupA, he, hes, ih]

theorem lookupA_append_single_ne {B : Type} (sec s : Bytes) (d' : B) (hs : s ≠ sec) :
    ∀ (p : List (Bytes × B)), lookupA (p ++ [(sec, d')]) s = lookupA p s := by
  intro p
  induction p with
  | nil =>
    have : sec ≠ s := fun hss => hs hss.symm
    simp [lookupA, this]
  | cons e t ih =>
    by_cases hes : e.1 = s
    · simp [lookupA, hes]
    · simp [lookupA, hes, ih]

theorem lookupA_setSectionData_ne (p : IniDoc) (sec s : Bytes)
    (d : List (Bytes × Bytes)) (hs : s ≠ sec) :
    lookupA (setSectionData p sec d) s = lookupA p s := by
  unfold setSectionData
  by_cases h : (lookupA p sec).isSome
  · simp only [h, if_true]
    exact lookupA_map_replace_ne sec s _ hs p
  · simp only [h, if_false]
    exact lookupA_append_single_ne sec s _ hs p

theorem mps_some_keyerror (secPat p : Bytes → Bool) :
    ∀ (tgt tmpl : IniDoc),
      (∃ e, e ∈ tgt ∧ secPat e.1 = true ∧ lookupA tmpl e.1 = none) →
      ∃ k, maybe_preserve_sections tmpl tgt secPat (some p) =
        Except.error (IniError.keyError k) := by
  intro tgt
  induction tgt with
  | nil =>
    intro tmpl ⟨e, he, _, _⟩
    exact absurd he (List.not_mem_nil e)
  | cons e0 t ih =>
    intro tmpl ⟨e, he, hsp, hnone⟩
    rw [maybe_preserve_sections, List.foldlM_cons]
    by_cases h0 : secPat e0.1 = true
    · cases hl : lookupA tmpl e0.1 with
      | none =>
        refine ⟨e0.1, ?_⟩
        simp only [preserveSectionStep, h0, if_true, hl]
        rfl
      | some tk =>
        simp only [preserveSectionStep, h0, if_true, hl, pure_bind]
        have hne : e.1 ≠ e0.1 := by
          intro hh
          rw [hh, hl] at hnone
          cases hnone
        have hmem : e ∈ t := by
          rcases List.mem_cons.mp he with rfl | hmem
          · exact absurd rfl hne
          · exact hmem
        exact ih _ ⟨e, hmem, hsp, by
          rw [lookupA_setSectionData_ne _ _ _ _ hne]
          exact hnone⟩
    · simp only [preserveSectionStep, h0, if_false, Bool.false_eq_true, pure_bind]
      have hmem : e ∈ t := by
        rcases List.mem_cons.mp he with rfl | hmem
        · exact absurd hsp h0
        · exact hmem
      exact ih tmpl ⟨e, hmem, hsp, hnone⟩

theorem mps_none_spec (secPat : Bytes → Bool) :
    ∀ (tgt tmpl : IniDoc), (sectionNames tgt).Nodup →
      ∃ res, maybe_preserve_sections tmpl tgt secPat none = Except.ok res ∧
        (∀ s, ¬ s ∈ sectionNames tgt → lookupA res s = lookupA tmpl s) ∧
        (∀ e ∈ tgt, secPat e.1 = true →
          lookupA res e.1 = some (e.2.map (fun kv => (pyLower kv.1, kv.2)))) := by
  intro tgt
  induction tgt with
  | nil =>
    intro tmpl _
    refine ⟨tmpl, ?_, fun s _ => rfl, fun e he => absurd he (List.not_mem_nil e)⟩
    rfl
  | cons e0 t ih =>
    intro tmpl hnd
    have hndc := List.nodup_cons.mp
      (show (e0.1 :: (t.map Prod.fst)).Nodup by simpa [sectionNames] using hnd)
    have hnd0 : ¬ e0.1 ∈ sectionNames t := by simpa [sectionNames] using hndc.1
    have hndt : (sectionNames t).Nodup := by simpa [sectionNames] using hndc.2
    rw [maybe_preserve_sections, List.foldlM_cons]
    by_cases h0 : secPat e0.1 = true
    · simp only [preserveSectionStep, h0, if_true, pure_bind]
      rcases ih (setSectionData tmpl e0.1 e0.2) hndt with ⟨res, hok, hout, hmatch⟩
      refine ⟨res, hok, ?_, ?_⟩
      · intro s hs
        have hs0 : s ≠ e0.1 := by
          intro hh
          exact hs (show s ∈ (e0 :: t).map Prod.fst from hh ▸ List.mem_cons_self _ _)
        have hst : ¬ s ∈ sectionNames t := by
          intro hh
          exact hs (List.mem_cons_of_mem _ hh)
        rw [hout s hst]
        exact lookupA_setSectionData_ne _ _ _ _ hs0
      · intro e he hsp
        rcases List.mem_cons.mp he with rfl | hmem
        · rw [hout e.1 hnd0]
          exact lookupA_setSectionData_self _ _ _
        · exact hmatch e hmem hsp
    · simp only [preserveSectionStep, h0, if_false, Bool.false_eq_true, pure_bind]
      rcases ih tmpl hndt with ⟨res, hok, hout, hmatch⟩
      refine ⟨res, hok, ?_, ?_⟩
      · intro s hs
        exact hout s (fun hh => hs (List.mem_cons_of_mem _ hh))
      · intro e he hsp
        rcases List.mem_cons.mp he with rfl | hmem
        · exact absurd hsp h0
        · exact hmatch e hmem hsp

/-- C10: with a non-null `excluded_keys` pattern, a target section that
matches the `sections` pattern but is absent from the parsed template
document makes `maybe_preserve_sections` (and hence
`ConfigParserMerge.apply`) raise a `KeyError`; with `excluded_keys`
unset the same inputs succeed and every matching target section is
copied into the output, created there if absent.  The two concrete
conjuncts run `ConfigParserMerge.apply` end to end on byte inputs. -/
theorem preserveSections_keyerror_on_missing_section :
    (∀ (tmpl tgt : IniDoc) (secPat p : Bytes → Bool),
      (∃ e, e ∈ tgt ∧ secPat e.1 = true ∧ lookupA tmpl e.1 = none) →
      ∃ k, maybe_preserve_sections tmpl tgt secPat (some p) =
        Except.error (IniError.keyError k)) ∧
    (∀ (tmpl tgt : IniDoc) (secPat : Bytes → Bool),
      (sectionNames tgt).Nodup →
      ∃ res, maybe_preserve_sections tmpl tgt secPat none = Except.ok res ∧
        ∀ e ∈ tgt, secPat e.1 = true →
          lookupA res e.1 = some (e.2.map (fun kv => (pyLower kv.1, kv.2)))) ∧
    cpm_apply exCPMCfgExcl (some (bs "[tox]\nenvlist = py38\n"))
      (bs "[other]\na = b\n") = Except.error (IniError.keyError (bs "tox")) ∧
    cpm_apply exCPMCfgNoExcl (some (bs "[tox]\nenvlist = py38\n"))
      (bs "[other]\na = b\n") =
      Except.ok (bs "[other]\na = b\n\n[tox]\nenvlist = py38\n") := by
  refine ⟨?_, ?_, by rfl, by rfl⟩
  · intro tmpl tgt secPat p h
    exact mps_some_keyerror secPat p tgt tmpl h
  · intro tmpl tgt secPat hnd
    rcases mps_none_spec secPat tgt tmpl hnd with ⟨res, hok, _, hmatch⟩
    exact ⟨res, hok, hmatch⟩

/-- Witness for C10, discharging the hypotheses of both general parts
on a concrete document pair. -/
theorem preserveSections_keyerror_on_missing_section_witness :
    (∃ k, maybe_preserve_sections [] [(bs "tox", [(bs "envlist", bs "py38")])]
      matchTox (some matchAny) = Except.error (IniError.keyError k)) ∧
    (∃ res, maybe_preserve_sections [] [(bs "tox", [(bs "envlist", bs "py38")])]
      matchTox none = Except.ok res ∧
      ∀ e ∈ [(bs "tox", [(bs "envlist", bs "py38")])], matchTox e.1 = true →
        lookupA res e.1 = some (e.2.map (fun kv => (pyLower kv.1, kv.2)))) :=
  ⟨preserveSections_keyerror_on_missing_section.1 []
      [(bs "tox", [(bs "envlist", bs "py38")])] matchTox matchAny
      ⟨(bs "tox", [(bs "envlist", bs "py38")]), by decide, by decide, by decide⟩,
   preserveSections_keyerror_on_missing_section.2.1 []
      [(bs "tox", [(bs "envlist", bs "py38")])] matchTox (by decide)⟩

theorem length_dropEndWhile_le (p : Char → Bool) (s : Bytes) :
    (dropEndWhile p s).length ≤ s.length := by
  unfold dropEndWhile
  rw [List.length_reverse]
  calc (s.reverse.dropWhile p).length
      ≤ s.reverse.length := (List.dropWhile_sublist p).length_le
    _ = s.length := List.length_reverse s

theorem mem_of_mem_dropEndWhile (p : Char → Bool) (s : Bytes) (x : Char)
    (h : x ∈ dropEndWhile p s) : x ∈ s := by
  unfold dropEndWhile at h
  rw [List.mem_reverse] at h
  exact List.mem_reverse.mp (List.Sublist.mem h (List.dropWhile_sublist p))

theorem lineEnding_empty_iff (s : Bytes) :
    lineEnding s = [] ↔
      (firstLine s).length = (rstripCRLF (firstLine s)).length := by
  unfold lineEnding
  simp only [List.drop_eq_nil_iff]
  constructor
  · intro h
    exact le_antisymm h (length_dropEndWhile_le _ _)
  · intro h
    exact h.le

theorem splitlines_no_crlf : ∀ (s : Bytes), ∀ l ∈ splitlines s, noCRLF l := by
  intro s
  induction s using splitlines.induct with
  | case1 =>
    intro l hl
    simp [splitlines] at hl
  | case2 rest ih =>
    intro l hl
    rw [show splitlines ('\r' :: '\n' :: rest) = [] :: splitlines rest from rfl] at hl
    rcases List.mem_cons.mp hl with rfl | hl
    · exact ⟨by simp, by simp⟩
    · exact ih l hl
  | case3 rest hne ih =>
    intro l hl
    rw [show splitlines ('\r' :: rest) = [] :: splitlines rest from by
      simp [splitlines, hne]] at hl
    rcases List.mem_cons.mp hl with rfl | hl
    · exact ⟨by simp, by simp⟩
    · exact ih l hl
  | case4 rest ih =>
    intro l hl
    rw [show splitlines ('\n' :: rest) = [] :: splitlines rest from rfl] at hl
    rcases List.mem_cons.mp hl with rfl | hl
    · exact ⟨by simp, by simp⟩
    · exact ih l hl
  | case5 c rest h1 h2 h3 ih =>
    intro l hl
    rw [show splitlines (c :: rest) = consHead c (splitlines rest) from by
      simp [splitlines, h1, h2, h3]] at hl
    cases hsp : splitlines rest with
    | nil =>
      rw [hsp] at hl
      simp only [consHead, List.mem_singleton] at hl
      subst hl
      refine ⟨?_, ?_⟩ <;> simp only [List.mem_singleton]
      · exact fun hh => h2 hh.symm
      · exact fun hh => h3 hh.symm
    | cons l0 ls =>
      rw [hsp] at hl
      simp only [consHead] at hl
      rcases List.mem_cons.mp hl with rfl | hl
      · have hl0 : noCRLF l0 := ih l0 (hsp ▸ List.mem_cons_self l0 ls)
        refine ⟨?_, ?_⟩ <;> simp only [List.mem_cons, not_or]
        · exact ⟨fun hh => h2 hh.symm, hl0.1⟩
        · exact ⟨fun hh => h3 hh.symm, hl0.2⟩
      · exact ih l (hsp ▸ List.mem_cons_of_mem l0 hl)

theorem detect_newline_io_spec (dflt : Bytes) :
    ∀ (bufs : List (Option BinIO)),
      (∀ x : BinIO, some x ∈ bufs → x.pos = 0) →
      (detect_newline_io bufs dflt).2 = bufs ∧
      (detect_newline_io bufs dflt).1 =
        detect_newline (bufs.map (fun o => o.map BinIO.data)) dflt := by
  intro bufs
  induction bufs with
  | nil => intro _; exact ⟨rfl, rfl⟩
  | cons b rest ih =>
    intro h
    have hrest : ∀ x : BinIO, some x ∈ rest → x.pos = 0 :=
      fun x hx => h x (List.mem_cons_of_mem _ hx)
    have hr := ih hrest
    cases b with
    | none =>
      refine ⟨?_, ?_⟩
      · show none :: (detect_newline_io rest dflt).2 = none :: rest
        rw [hr.1]
      · show (detect_newline_io rest dflt).1 = _
        rw [hr.2]
        rfl
    | some b0 =>
      have hb : b0.pos = 0 := h b0 (List.mem_cons_self _ _)
      obtain ⟨bd, bp⟩ := b0
      simp only at hb
      subst hb
      simp only [detect_newline_io, BinIO.readlineFrom, BinIO.seek0,
        List.drop_zero, detect_newline, List.map_cons, Option.map_some]
      by_cases hlen : (firstLine bd).length = (rstripCRLF (firstLine bd)).length
      · have hcond : ¬ (firstLine bd).length ≠ (rstripCRLF (firstLine bd)).length :=
          fun hc => hc hlen
        have hemp : lineEnding bd = [] := (lineEnding_empty_iff bd).mpr hlen
        simp only [hcond, if_false, hemp, List.isEmpty_nil, if_true]
        exact ⟨by rw [hr.1], by rw [hr.2]⟩
      · have hemp : ¬ (lineEnding bd).isEmpty = true := by
          rw [List.isEmpty_iff]
          exact fun hc => hlen ((lineEnding_empty_iff bd).mp hc)
        refine ⟨?_, ?_⟩
        · rw [if_pos hlen]
        · rw [if_pos hlen, if_neg hemp]
          rfl

theorem joinNL_cons_cons (nl x y : Bytes) (t : List Bytes) :
    joinNL nl (x :: y :: t) = x ++ nl ++ joinNL nl (y :: t) := rfl

theorem joinNL_append (nl : Bytes) :
    ∀ (xs ys : List Bytes), xs ≠ [] → ys ≠ [] →
      joinNL nl (xs ++ ys) = joinNL nl xs ++ nl ++ joinNL nl ys := by
  intro xs
  induction xs with
  | nil => intro ys h _; exact absurd rfl h
  | cons x t ih =>
    intro ys _ hys
    cases t with
    | nil =>
      cases ys with
      | nil => exact absurd rfl hys
      | cons y ys2 =>
        rw [show [x] ++ y :: ys2 = x :: y :: ys2 from rfl, joinNL_cons_cons]
        rfl
    | cons x2 t2 =>
      have hrec := ih ys (by simp) hys
      calc joinNL nl ((x :: x2 :: t2) ++ ys)
          = x ++ nl ++ joinNL nl ((x2 :: t2) ++ ys) := rfl
        _ = x ++ nl ++ (joinNL nl (x2 :: t2) ++ nl ++ joinNL nl ys) := by rw [hrec]
        _ = (x ++ nl ++ joinNL nl (x2 :: t2)) ++ nl ++ joinNL nl ys := by
            simp [List.append_assoc]
        _ = joinNL nl (x :: x2 :: t2) ++ nl ++ joinNL nl ys := rfl

theorem flatten_map_gen (nl : Bytes) (g : Bytes → Bytes) :
    ∀ (ls : List Bytes),
      ((ls.map (fun l => g l ++ nl)).flatten) = joinNL nl (ls.map g ++ [[]]) := by
  intro ls
  induction ls with
  | nil => rfl
  | cons a t ih =>
    cases t with
    | nil => simp [joinNL]
    | cons b t2 =>
      calc (((a :: b :: t2).map (fun l => g l ++ nl)).flatten)
          = (g a ++ nl) ++ (((b :: t2).map (fun l => g l ++ nl)).flatten) := rfl
        _ = (g a ++ nl) ++ joinNL nl ((b :: t2).map g ++ [[]]) := by rw [ih]
        _ = joinNL nl ((a :: b :: t2).map g ++ [[]]) := by
            rw [show (a :: b :: t2).map g ++ [[]] =
              g a :: g b :: (t2.map g ++ [[]]) from by simp,
              show (b :: t2).map g ++ [[]] = g b :: (t2.map g ++ [[]]) from by simp,
              joinNL_cons_cons]
            try simp [List.append_assoc]

theorem flatten_map_nl (nl : Bytes) (ls : List Bytes) :
    ((ls.map (fun l => l ++ nl)).flatten) = joinNL nl (ls ++ [[]]) := by
  have h := flatten_map_gen nl id ls
  simpa using h

theorem noCRLF_append (a b : Bytes) (ha : noCRLF a) (hb : noCRLF b) :
    noCRLF (a ++ b) := by
  unfold noCRLF at *
  refine ⟨?_, ?_⟩ <;> rw [List.mem_append, not_or]
  · exact ⟨ha.1, hb.1⟩
  · exact ⟨ha.2, hb.2⟩

theorem noCRLF_maybe_add (cfg : THConfig) (line : Bytes) (hl : noCRLF line)
    (hm : noCRLF cfg.max_line_linter_ignore_mark) :
    noCRLF (TemplateHash.maybe_add_linter_ignore cfg line) := by
  unfold TemplateHash.maybe_add_linter_ignore
  split
  · exact hl
  · split
    all_goals first
    | exact noCRLF_append _ _ hl hm
    | exact hl

theorem noCRLF_comment_contents (cfg : THConfig) (meta : TemplateMeta)
    (h1 : noCRLF cfg.line_comment_start) (hurl : noCRLF meta.commit_url) :
    ∀ l ∈ TemplateHash.comment_contents cfg meta, noCRLF l := by
  intro l hl
  unfold TemplateHash.comment_contents at hl
  rcases List.mem_map.mp hl with ⟨x, hx, rfl⟩
  have hx' : noCRLF x := by
    rcases List.mem_cons.mp hx with rfl | hx2
    · exact ⟨by decide, by decide⟩
    · rcases List.mem_singleton.mp hx2 with rfl
      unfold TemplateHash.fromLine
      split
      · exact noCRLF_append _ _ ⟨by decide, by decide⟩ hurl
      · exact noCRLF_append _ _ ⟨by decide, by decide⟩ hurl
  exact noCRLF_append _ _ (noCRLF_append _ _ h1 ⟨by decide, by decide⟩) hx'

theorem joinedWith_pretty_output (p : IniDoc) (nl : Bytes) :
    joinedWith nl (parser_to_pretty_output p nl) := by
  refine ⟨(splitlines (replaceTab (writeDoc (sortDoc p)))).map rstripWS, ?_, rfl⟩
  intro l hl
  rcases List.mem_map.mp hl with ⟨l0, hl0, rfl⟩
  have h0 := splitlines_no_crlf _ l0 hl0
  exact ⟨fun hc => h0.1 (mem_of_mem_dropEndWhile _ _ _ hc),
         fun hc => h0.2 (mem_of_mem_dropEndWhile _ _ _ hc)⟩

theorem joinedWith_th_rewritten (cfg : THConfig) (meta : TemplateMeta)
    (template nl : Bytes) (hnl1 : noCRLF cfg.line_comment_start)
    (hnl2 : noCRLF cfg.max_line_linter_ignore_mark)
    (hurl : noCRLF meta.commit_url) :
    joinedWith nl (TemplateHash.rewritten cfg meta template nl) := by
  refine ⟨(splitlines template ++ [[]]) ++
    ((TemplateHash.comment_contents cfg meta).map
      (TemplateHash.maybe_add_linter_ignore cfg) ++ [[]]), ?_, ?_⟩
  · intro l hl
    rcases List.mem_append.mp hl with hl | hl
    · rcases List.mem_append.mp hl with hl | hl
      · exact splitlines_no_crlf template l hl
      · rcases List.mem_singleton.mp hl with rfl
        exact ⟨by simp, by simp⟩
    · rcases List.mem_append.mp hl with hl | hl
      · rcases List.mem_map.mp hl with ⟨x, hx, rfl⟩
        exact noCRLF_maybe_add cfg x
          (noCRLF_comment_contents cfg meta hnl1 hurl x hx) hnl2
      · rcases List.mem_singleton.mp hl with rfl
        exact ⟨by simp, by simp⟩
  · calc TemplateHash.rewritten cfg meta template nl
        = ((splitlines template).map (fun l => l ++ nl)).flatten ++ nl ++
          (((TemplateHash.comment_contents cfg meta).map
            (fun line => TemplateHash.maybe_add_linter_ignore cfg line ++ nl)).flatten) := rfl
      _ = joinNL nl (splitlines template ++ [[]]) ++ nl ++
          joinNL nl ((TemplateHash.comment_contents cfg meta).map
            (TemplateHash.maybe_add_linter_ignore cfg) ++ [[]]) := by
          rw [flatten_map_nl, flatten_map_gen]
      _ = joinNL nl ((splitlines template ++ [[]]) ++
          ((TemplateHash.comment_contents cfg meta).map
            (TemplateHash.maybe_add_linter_ignore cfg) ++ [[]])) :=
          (joinNL_append nl _ _ (by simp) (by simp)).symm

/-- C6: newline detection inspects the first line of the target buffer
then the template buffer, takes the first ending found (falling back to
the default `\n`), and leaves every inspected buffer back at offset
zero; consequently, with a CRLF target and an LF template, the
rewriting strategies `TemplateHash` and `ConfigParserMerge` emit `\r\n`
as the sole line separator of their (re)written output. -/
theorem detectNewline_policy_and_propagation :
    (∀ (bufs : List (Option BinIO)) (dflt : Bytes),
      (∀ x : BinIO, some x ∈ bufs → x.pos = 0) →
      (detect_newline_io bufs dflt).2 = bufs ∧
      (detect_newline_io bufs dflt).1 =
        detect_newline (bufs.map (fun o => o.map BinIO.data)) dflt) ∧
    (∀ t g dflt : Bytes,
      (lineEnding t ≠ [] → detect_newline [some t, some g] dflt = lineEnding t) ∧
      (lineEnding t = [] → lineEnding g ≠ [] →
        detect_newline [some t, some g] dflt = lineEnding g) ∧
      (lineEnding t = [] → lineEnding g = [] →
        detect_newline [some t, some g] dflt = dflt)) ∧
    (∀ (cfg : THConfig) (meta : TemplateMeta) (target template : Bytes),
      lineEnding target = bs "\r\n" → noCRLF cfg.line_comment_start →
      noCRLF cfg.max_line_linter_ignore_mark → noCRLF meta.commit_url →
      TemplateHash.apply cfg meta (some target) template = target ∨
      joinedWith (bs "\r\n") (TemplateHash.apply cfg meta (some target) template)) ∧
    (∀ (cfg : CPMConfig) (target template out : Bytes),
      lineEnding target = bs "\r\n" →
      cpm_apply cfg (some target) template = Except.ok out →
      joinedWith (bs "\r\n") out) := by
  have hfirst : ∀ (t g dflt : Bytes), lineEnding t ≠ [] →
      detect_newline [some t, some g] dflt = lineEnding t := by
    intro t g dflt h1
    have h2 : ¬ (lineEnding t).isEmpty = true := by
      rw [List.isEmpty_iff]
      exact h1
    simp [detect_newline, h2]
  refine ⟨fun bufs dflt hp => detect_newline_io_spec dflt bufs hp, ?_, ?_, ?_⟩
  · intro t g dflt
    refine ⟨hfirst t g dflt, fun h1 h2 => ?_, fun h1 h2 => ?_⟩
    · have he1 : (lineEnding t).isEmpty = true := by rw [List.isEmpty_iff]; exact h1
      have he2 : ¬ (lineEnding g).isEmpty = true := by
        rw [List.isEmpty_iff]; exact h2
      simp [detect_newline, he1, he2]
    · have he1 : (lineEnding t).isEmpty = true := by rw [List.isEmpty_iff]; exact h1
      have he2 : (lineEnding g).isEmpty = true := by rw [List.isEmpty_iff]; exact h2
      simp [detect_newline, he1, he2]
  · intro cfg meta target template hle h1 h2 h3
    have hnl : detect_newline [some target, some template] (bs "\n") = bs "\r\n" := by
      rw [hfirst target template (bs "\n") (by rw [hle]; decide), hle]
    rw [show TemplateHash.apply cfg meta (some target) template =
      (if containsSeq (TemplateHash.render_comment cfg
          (TemplateHash.searched_comment_contents cfg meta)
          (detect_newline [some target, some template] (bs "\n"))) target
          && !meta.is_git_dirty then target
       else TemplateHash.rewritten cfg meta template
          (detect_newline [some target, some template] (bs "\n"))) from rfl]
    split
    · exact Or.inl rfl
    · rw [hnl]
      exact Or.inr (joinedWith_th_rewritten cfg meta template (bs "\r\n") h1 h2 h3)
  · intro cfg target template out hle hok
    have hnl : detect_newline [some target, some template] (bs "\n") = bs "\r\n" := by
      rw [hfirst target template (bs "\n") (by rw [hle]; decide), hle]
    unfold cpm_apply at hok
    rw [hnl] at hok
    cases hp : parse_config template (bs "<template>") with
    | error e => rw [hp] at hok; cases hok
    | ok tp =>
      rw [hp] at hok
      dsimp only at hok
      cases hq : parseTarget (some target) with
      | error e => rw [hq] at hok; cases hok
      | ok tgtp =>
        rw [hq] at hok
        dsimp only at hok
        cases hm : cpm_merge_configs cfg tp tgtp with
        | error e => rw [hm] at hok; cases hok
        | ok merged =>
          rw [hm] at hok
          dsimp only at hok
          injection hok with hout
          rw [← hout]
          exact joinedWith_pretty_output merged (bs "\r\n")

/-- Witness for C6: the value-level priority conjunct and the
`ConfigParserMerge` propagation conjunct at concrete CRLF/LF buffers. -/
theorem detectNewline_policy_witness :
    detect_newline [some (bs "a\r\nb"), some (bs "x\ny")] (bs "\n") =
      lineEnding (bs "a\r\nb") ∧
    joinedWith (bs "\r\n") (bs "[t]\r\na = b\r\n") :=
  ⟨(detectNewline_policy_and_propagation.2.1 (bs "a\r\nb") (bs "x\ny")
      (bs "\n")).1 (by decide),
   detectNewline_policy_and_propagation.2.2.2 ⟨[], []⟩ (bs "[s]\r\nk = v\r\n")
      (bs "[t]\na = b\n") (bs "[t]\r\na = b\r\n")
      (by decide) (by rfl)⟩

theorem reqLe_trans (a b c : Bytes) (h1 : reqLe a b = true) (h2 : reqLe b c = true) :
    reqLe a c = true := by
  simp only [reqLe, decide_eq_true_eq] at h1 h2 ⊢
  exact le_trans h1 h2

theorem reqLe_total (a b : Bytes) : reqLe a b = true ∨ reqLe b a = true := by
  simp only [reqLe, decide_eq_true_eq]
  exact le_total _ _

/-- C3: the requirement merge of `SetupCfgMerge` — for every matched
(section, key) the merged list keeps each target entry verbatim, drops
template entries whose case-insensitive package name collides with a
target entry, appends the remaining template entries, sorts the result
case-insensitively and serialises it with a leading blank entry; the
requirement merge runs before the generic preserve rules (which
therefore see merged values); and the concrete scenario of the
specification produces exactly the expected bytes, containing
`FOO==2.0` and `bar==1.0` but not `foo==1.0`. -/
theorem setupCfgMerge_requirements_spec :
    (∀ (treqs greqs : List Bytes),
      (merged_requirements treqs greqs).Pairwise (fun a b => reqLe a b = true) ∧
      (∀ r, r ∈ merged_requirements treqs greqs ↔
        (r ∈ greqs ∨ (r ∈ treqs ∧ ¬ normalizeReq r ∈ greqs.map normalizeReq)))) ∧
    (∀ (reqs : List Bytes) (nl : Bytes), reqs ≠ [] →
      dump_setupcfg_requirements reqs nl = nl ++ joinNL nl reqs) ∧
    (∀ (cfg : SCMConfig) (tmpl : IniDoc) (tgt : Option IniDoc) (nl : Bytes),
      scm_merge_configs cfg tmpl tgt nl =
        cpm_merge_configs cfg.toCPMConfig
          ((matchedRequirementKeys cfg.merge_requirements tmpl tgt).foldl
            (fun (acc : IniDoc × Option IniDoc) p =>
              merge_requirements_step acc.1 acc.2 p.1 p.2 nl) (tmpl, tgt)).1
          ((matchedRequirementKeys cfg.merge_requirements tmpl tgt).foldl
            (fun (acc : IniDoc × Option IniDoc) p =>
              merge_requirements_step acc.1 acc.2 p.1 p.2 nl) (tmpl, tgt)).2) ∧
    (scm_apply exSCMCfg (some exSetupCfgTarget) exSetupCfgTemplate =
      Except.ok (bs "[options]\ninstall_requires =\n    bar==1.0\n    FOO==2.0\n") ∧
     scm_apply exSCMCfgPreserve (some exSetupCfgTarget) exSetupCfgTemplate =
      Except.ok (bs "[options]\ninstall_requires =\n    bar==1.0\n    FOO==2.0\n") ∧
     containsSeq (bs "FOO==2.0")
       (bs "[options]\ninstall_requires =\n    bar==1.0\n    FOO==2.0\n") = true ∧
     containsSeq (bs "bar==1.0")
       (bs "[options]\ninstall_requires =\n    bar==1.0\n    FOO==2.0\n") = true ∧
     containsSeq (bs "foo==1.0")
       (bs "[options]\ninstall_requires =\n    bar==1.0\n    FOO==2.0\n") = false) := by
  refine ⟨?_, ?_, fun cfg tmpl tgt nl => rfl,
    by rfl, by rfl, by decide, by decide, by decide⟩
  · intro treqs greqs
    refine ⟨sorted_sortLe reqLe reqLe_trans reqLe_total _, ?_⟩
    intro r
    rw [show merged_requirements treqs greqs = sortLe reqLe (greqs ++
      treqs.filter (fun r => !(greqs.map normalizeReq).contains (normalizeReq r)))
      from rfl]
    rw [mem_sortLe, List.mem_append, List.mem_filter]
    simp
  · intro reqs nl h
    cases reqs with
    | nil => exact absurd rfl h
    | cons a t => rfl

/-- Witness for C3, discharging the non-empty-list hypothesis of the
serialisation conjunct on a concrete requirement list. -/
theorem setupCfgMerge_requirements_spec_witness :
    dump_setupcfg_requirements [bs "bar==1.0", bs "FOO==2.0"] (bs "\n") =
      bs "\n" ++ joinNL (bs "\n") [bs "bar==1.0", bs "FOO==2.0"] :=
  setupCfgMerge_requirements_spec.2.1 [bs "bar==1.0", bs "FOO==2.0"] (bs "\n")
    (by decide)

/-- C1: for a non-null target containing the rendered searched comment
block, `TemplateHash.apply` returns the target unchanged when the
template checkout is clean, and ignores the marker match when it is
dirty, returning the rewritten output (the newline-normalised template
content plus a freshly appended comment block). -/
theorem templateHash_idempotent_unless_dirty (cfg : THConfig) (meta : TemplateMeta)
    (target template : Bytes)
    (hmark : containsSeq
      (TemplateHash.render_comment cfg (TemplateHash.searched_comment_contents cfg meta)
        (detect_newline [some target, some template] (bs "\n"))) target = true) :
    (meta.is_git_dirty = false →
      TemplateHash.apply cfg meta (some target) template = target) ∧
    (meta.is_git_dirty = true →
      TemplateHash.apply cfg meta (some target) template =
        TemplateHash.rewritten cfg meta template
          (detect_newline [some target, some template] (bs "\n"))) := by
  refine ⟨fun h => ?_, fun h => ?_⟩ <;>
    simp [TemplateHash.apply, hmark, h]

/-- Witness for C1: a clean rerun on a previous output is the
identity. -/
theorem templateHash_idempotent_unless_dirty_witness :
    TemplateHash.apply exCfg exMetaClean (some exTargetClean) (bs "hi") =
      exTargetClean :=
  (templateHash_idempotent_unless_dirty exCfg exMetaClean exTargetClean (bs "hi")
    (by decide)).1 rfl

/-- C4 counterexample: for `TemplateHash` the searched comment block
does not omit the `From <commit_url>` commit line — it contains it (the
searched block is the full comment block). -/
theorem templateHash_searched_includes_commit_line :
    TemplateHash.searched_comment_contents exCfg exMetaClean =
      [bs "# Generated by https://github.com/rambler-digital-solutions/scaraplate",
       bs "# From https://example.com/c/1"] ∧
    bs "# From https://example.com/c/1" ∈
      TemplateHash.searched_comment_contents exCfg exMetaClean := by
  decide

/-- C4 amended: for `RenderedTemplateFileHash` the searched block omits
the commit line (it depends only on the configuration and the rendered
template content; the appended block is the searched block plus the
commit line), while for `TemplateHash` the searched block equals the
full appended block and contains the commit line. -/
theorem rtfh_searched_omits_commit_line (md5hex : Bytes → Bytes) (cfg : THConfig)
    (meta : TemplateMeta) (template : Bytes) :
    RenderedTemplateFileHash.comment_contents md5hex cfg meta template =
      RenderedTemplateFileHash.searched_comment_contents md5hex cfg template ++
        [cfg.line_comment_start ++ bs " " ++ TemplateHash.fromLine meta] ∧
    TemplateHash.searched_comment_contents cfg meta =
      TemplateHash.comment_contents cfg meta ∧
    cfg.line_comment_start ++ bs " " ++ TemplateHash.fromLine meta ∈
      TemplateHash.searched_comment_contents cfg meta := by
  refine ⟨rfl, rfl, ?_⟩
  simp only [TemplateHash.searched_comment_contents, TemplateHash.comment_contents,
    List.mem_map]
  exact ⟨TemplateHash.fromLine meta, by simp, rfl⟩

/-- C7 counterexample: a comment line whose length equals
`max_line_length` (so is not longer than it) still receives the
linter-ignore suffix. -/
theorem linter_ignore_at_exact_length :
    (bs "0123456789").length = 10 ∧
    TemplateHash.maybe_add_linter_ignore cfg10ex (bs "0123456789") =
      bs "0123456789  # noqa" := by
  decide

/-- C7 amended: a generated comment line receives the
`max_line_linter_ignore_mark` suffix exactly when `max_line_length` is
set (to a nonzero value, as schema validation guarantees) and the line's
length is at least `max_line_length`; when `max_line_length` is unset no
length check is performed. -/
theorem linter_ignore_iff_reaches_max (cfg : THConfig) (line : Bytes) :
    (cfg.max_line_length = none →
      TemplateHash.maybe_add_linter_ignore cfg line = line) ∧
    (∀ n, cfg.max_line_length = some n → n ≠ 0 →
      (n ≤ line.length →
        TemplateHash.maybe_add_linter_ignore cfg line =
          line ++ cfg.max_line_linter_ignore_mark) ∧
      (line.length < n →
        TemplateHash.maybe_add_linter_ignore cfg line = line)) := by
  constructor
  · intro h
    simp [TemplateHash.maybe_add_linter_ignore, h]
  · intro n hn hnz
    constructor
    · intro hlen
      simp [TemplateHash.maybe_add_linter_ignore, hn, hnz, hlen]
    · intro hlen
      have hge : ¬ line.length ≥ n := by omega
      simp [TemplateHash.maybe_add_linter_ignore, hn, hge]

/-- Witness for the amended C7 at a boundary input. -/
theorem linter_ignore_iff_reaches_max_witness :
    TemplateHash.maybe_add_linter_ignore cfg10ex (bs "0123456789") =
      bs "0123456789" ++ bs "  # noqa" :=
  ((linter_ignore_iff_reaches_max cfg10ex (bs "0123456789")).2 10 rfl
    (by decide)).1 (by decide)

end Scaraplate
